import Mathlib

/-!
Shallow embedding of the fly-io-gossip-glomers repository (Rust) for
specification checking: the maelstrom node runtime
(src/maelstrom/src/app.rs, src/maelstrom/src/protocol.rs), the Seq-KV
service client (src/maelstrom/src/app/services/seq_kv.rs) and the
broadcast application (src/broadcast/src/main.rs).

Modelling conventions:
- `NodeID` is a plain `String`, `MessageID` and u32 payload values are `Nat`
  (with an explicit `% 2^32` where the u32 counter wraps).
- `HashMap`/`HashSet` are association lists / duplicate-free lists; the
  operations below (`alookup`, `aupdate`, `aremove`) implement exactly the
  entry semantics used by the source (`entry().or_insert_with`, `remove`).
- `Instant` is a `Nat` timestamp in milliseconds; `elapsed()` at time `now`
  for a stamp `t` is truncated subtraction `now - t`.
- Fallible construction (Rust panics) is modelled with `Option`.
-/

/-- The u32 modulus: the `msg_id` counter is an `AtomicU32`, so emission
wraps at 2^32 (`fetch_add(1, SeqCst)` returns the old value and stores the
wrapped successor). -/
def u32Mod : Nat := 4294967296

/-- Association-list lookup: first entry with the given key, mirroring
`HashMap::get` on maps whose keys are unique. -/
def alookup {κ ν : Type} [DecidableEq κ] (k : κ) : List (κ × ν) → Option ν
  | [] => none
  | p :: rest => if p.1 = k then some p.2 else alookup k rest

/-- Association-list entry update, mirroring `HashMap::entry(k)` followed by
either an in-place mutation (`Occupied`) or an insertion (`Vacant`): the
first entry with key `k` is replaced by `(k, f (some old))`; if no entry has
key `k`, `(k, f none)` is appended. -/
def aupdate {κ ν : Type} [DecidableEq κ] (k : κ) (f : Option ν → ν) : List (κ × ν) → List (κ × ν)
  | [] => [(k, f none)]
  | p :: rest => if p.1 = k then (k, f (some p.2)) :: rest else p :: aupdate k f rest

/-- Association-list removal, mirroring `HashMap::remove(k)` on maps whose
keys are unique. -/
def aremove {κ ν : Type} [DecidableEq κ] (k : κ) : List (κ × ν) → List (κ × ν)
  | [] => []
  | p :: rest => if p.1 = k then aremove k rest else p :: aremove k rest


/-- Modelled on `NodeID::is_client` (src/maelstrom/src/protocol.rs): the
identifier starts with the character c, i.e. `starts_with("c")`. -/
def isClient (n : String) : Bool :=
  match n.data with
  | [] => false
  | c :: _ => decide (c = 'c')

/-- Modelled on `NodeID::is_server` (src/maelstrom/src/protocol.rs):
`starts_with("n")`. -/
def isServer (n : String) : Bool :=
  match n.data with
  | [] => false
  | c :: _ => decide (c = 'n')

/-- `MessageBody` from src/maelstrom/src/protocol.rs: `msg_id`,
`in_reply_to`, and the type-tagged payload flattened into the body. -/
structure MessageBody (α : Type) where
  msg_id : Option Nat
  in_reply_to : Option Nat
  payload : α
deriving DecidableEq, Repr

/-- `Message` from src/maelstrom/src/protocol.rs: `src`, `dst` (wire name
`dest`) and the body. -/
structure Message (α : Type) where
  src : String
  dst : String
  body : MessageBody α
deriving DecidableEq, Repr

/-- `MessageWriter` from src/maelstrom/src/app.rs, restricted to its
observable state: the node identity, the `AtomicU32` `msg_id` counter, and
the ordered list of envelopes emitted so far (the channel/stdout plumbing
carries the envelopes unchanged and in order). -/
structure MessageWriter (α : Type) where
  node_id : String
  msg_id : Nat
  sent : List (Message α)
deriving DecidableEq, Repr

/-- The writer as constructed in `event_loop`: counter 0, nothing sent. -/
def MessageWriter.init {α : Type} (node_id : String) : MessageWriter α :=
  ⟨node_id, 0, []⟩

/-- `MessageWriter::reply_to`: emits one envelope with `src` = this node,
`dst` = received `src`, `in_reply_to` = received `msg_id`, and a fresh
`msg_id` obtained from `fetch_add(1)` on the u32 counter; returns the fresh
identifier. -/
def MessageWriter.reply_to {α β : Type} (w : MessageWriter α) (received : Message β)
    (payload : α) : MessageWriter α × Nat :=
  let message_id := w.msg_id % u32Mod
  (⟨w.node_id, (w.msg_id + 1) % u32Mod,
    w.sent ++ [⟨w.node_id, received.src, ⟨some message_id, received.body.msg_id, payload⟩⟩]⟩,
   message_id)

/-- `MessageWriter::send_to`: fire-and-forget emission with a fresh
`msg_id` and `in_reply_to` absent; returns the fresh identifier. -/
def MessageWriter.send_to {α : Type} (w : MessageWriter α) (node_id : String)
    (payload : α) : MessageWriter α × Nat :=
  let message_id := w.msg_id % u32Mod
  (⟨w.node_id, (w.msg_id + 1) % u32Mod,
    w.sent ++ [⟨w.node_id, node_id, ⟨some message_id, none, payload⟩⟩]⟩,
   message_id)

/-- The emission half of `MessageWriter::send_and_receive`: identical
envelope to `send_to` (fresh `msg_id`, no `in_reply_to`); the response
callback registration and the await are not part of the emitted-envelope
state. -/
def MessageWriter.send_and_receive_send {α : Type} (w : MessageWriter α) (node_id : String)
    (payload : α) : MessageWriter α × Nat :=
  MessageWriter.send_to w node_id payload

/-- `BroadcastPayload` from src/broadcast/src/main.rs. -/
inductive BroadcastPayload where
  | broadcast (message : Nat)
  | broadcast_ok
  | broadcast_batched (messages : List Nat)
  | broadcast_batched_ok
  | read
  | read_ok (messages : List Nat)
  | topology (topology : List (String × List String))
  | topology_ok
deriving DecidableEq, Repr

/-- `AckContext` from src/broadcast/src/main.rs. -/
structure AckContext where
  message_id : Nat
  time_sent : Nat
deriving DecidableEq, Repr

/-- The `Broadcast` application state from src/broadcast/src/main.rs. -/
structure Broadcast where
  messages_seen : List Nat
  neighbors : List String
  always_broadcast : Bool
  neighbor_messages_not_acked : List (String × List (List Nat × AckContext))
  batched_sends_to_neighbors : List (String × (Nat × List Nat))
deriving DecidableEq, Repr

/-- Fuel-indexed worker for `chunks` (Rust `slice::chunks(k)` with `k ≥ 1`):
successive sub-slices of length `k`, the last one possibly shorter. The fuel
only forces termination; it is irrelevant once at least `l.length`. -/
def chunksFuel {α : Type} (k : Nat) : Nat → List α → List (List α)
  | _, [] => []
  | 0, _ :: _ => []
  | fuel + 1, x :: xs => (x :: xs).take k :: chunksFuel k fuel ((x :: xs).drop k)

/-- Rust `slice::chunks(k)` for `k ≥ 1`: splits a list into contiguous
chunks of length `k`, the last chunk holding the remainder (shorter, never
longer). `chunks 0` is never used: the source panics on a zero chunk size,
which `Broadcast.new` models with `none`. -/
def chunks {α : Type} (k : Nat) (l : List α) : List (List α) :=
  chunksFuel k l.length l

/-- Rust `Iterator::position(p)`: index of the first element satisfying the
predicate. -/
def position {α : Type} (p : α → Bool) : List α → Option Nat
  | [] => none
  | x :: xs => if p x then some 0 else (position p xs).map (· + 1)

/-- `Broadcast::new` from src/broadcast/src/main.rs. `none` models the two
panics: `chunks(0)` when `node_ids.len() / 5 == 0`, and the explicit panic
when `node_id` is in no chunk (plus the `expect` on the position inside the
chunk and the slice indexing, which cannot fail when the first two
succeed). -/
def Broadcast.new (node_id : String) (node_ids : List String) : Option Broadcast :=
  let k := node_ids.length / 5
  if k = 0 then none
  else
    let cs := chunks k node_ids
    match position (fun c => decide (node_id ∈ c)) cs with
    | none => none
    | some chunk_index =>
      match cs[chunk_index]? with
      | none => none
      | some chunk =>
        match position (fun n => decide (n = node_id)) chunk with
        | none => none
        | some index_in_chunk =>
          let pair : Option (List String × Bool) :=
            if index_in_chunk = 0 then
              (cs[(chunk_index + 1) % cs.length]?).map (fun next_chunk => (next_chunk, true))
            else some (chunk, false)
          pair.map (fun p =>
            { messages_seen := []
              neighbors := p.1.filter (fun n => decide (n ≠ node_id))
              always_broadcast := p.2
              neighbor_messages_not_acked := []
              batched_sends_to_neighbors := [] })

/-- `Broadcast::prepare_send_to_neighbor`: start a pending batch at the
current time with the single value, or append the value to the existing
batch for that neighbor. -/
def Broadcast.prepare_send_to_neighbor (now : Nat) (s : Broadcast) (neighbor : String)
    (message : Nat) : Broadcast :=
  { s with batched_sends_to_neighbors :=
      aupdate neighbor (fun old =>
        match old with
        | none => (now, [message])
        | some (t, ms) => (t, ms ++ [message])) s.batched_sends_to_neighbors }

/-- `Broadcast::batched_send_to_neighbor`: emit a `broadcast_batched` send
and record (or refresh) the unacked entry for the exact batch contents with
the emission time and the outbound `msg_id`. -/
def Broadcast.batched_send_to_neighbor (now : Nat) (sw : Broadcast × MessageWriter BroadcastPayload)
    (neighbor : String) (messages : List Nat) : Broadcast × MessageWriter BroadcastPayload :=
  let wr := sw.2.send_to neighbor (BroadcastPayload.broadcast_batched messages)
  ({ sw.1 with neighbor_messages_not_acked :=
      (aupdate neighbor (fun old =>
        aupdate messages (fun _ => ⟨wr.2, now⟩) (old.getD []))
        sw.1.neighbor_messages_not_acked) },
   wr.1)

/-- `Broadcast::handle_message`: insert into `messages_seen`; if newly
inserted and the source is a client or `always_broadcast` is set, enqueue
the value to every neighbor. -/
def Broadcast.handle_message (now : Nat) (s : Broadcast) (message : Message BroadcastPayload)
    (m : Nat) : Broadcast :=
  let inserted : Bool := decide (m ∉ s.messages_seen)
  let s1 := if m ∈ s.messages_seen then s else { s with messages_seen := s.messages_seen ++ [m] }
  if inserted && (isClient message.src || s1.always_broadcast) then
    s1.neighbors.foldl (fun st nb => Broadcast.prepare_send_to_neighbor now st nb m) s1
  else s1

/-- `Broadcast::handle` from src/broadcast/src/main.rs (the `App::handle`
implementation), with the writer threaded explicitly. -/
def Broadcast.handle (now : Nat) (message : Message BroadcastPayload) (s : Broadcast)
    (w : MessageWriter BroadcastPayload) : Broadcast × MessageWriter BroadcastPayload :=
  match message.body.payload with
  | BroadcastPayload.broadcast m =>
      (Broadcast.handle_message now s message m,
       (w.reply_to message BroadcastPayload.broadcast_ok).1)
  | BroadcastPayload.broadcast_ok => (s, w)
  | BroadcastPayload.broadcast_batched ms =>
      (ms.foldl (fun st mm => Broadcast.handle_message now st message mm) s,
       (w.reply_to message BroadcastPayload.broadcast_batched_ok).1)
  | BroadcastPayload.broadcast_batched_ok =>
      let cur := (alookup message.src s.neighbor_messages_not_acked).getD []
      let newInner :=
        match cur.find? (fun p => decide (message.body.in_reply_to = some p.2.message_id)) with
        | some p => aremove p.1 cur
        | none => cur
      ({ s with neighbor_messages_not_acked :=
          (aupdate message.src (fun _ => newInner) s.neighbor_messages_not_acked) }, w)
  | BroadcastPayload.read_ok _ => (s, w)
  | BroadcastPayload.read =>
      (s, (w.reply_to message (BroadcastPayload.read_ok s.messages_seen)).1)
  | BroadcastPayload.topology _ =>
      (s, (w.reply_to message BroadcastPayload.topology_ok).1)
  | BroadcastPayload.topology_ok => (s, w)

/-- Folding `batched_send_to_neighbor` over a list of (neighbor, batch)
pairs, as both loops of `Broadcast::tick` do. -/
def sendFold (now : Nat) (l : List (String × List Nat))
    (sw : Broadcast × MessageWriter BroadcastPayload) : Broadcast × MessageWriter BroadcastPayload :=
  l.foldl (fun acc e => Broadcast.batched_send_to_neighbor now acc e.1 e.2) sw

/-- First half of `Broadcast::tick`: batches pending for at least 100 ms are
sent (in map order) and their keys removed from
`batched_sends_to_neighbors`. -/
def Broadcast.flushPhase (now : Nat) (sw : Broadcast × MessageWriter BroadcastPayload) :
    Broadcast × MessageWriter BroadcastPayload :=
  let ready := sw.1.batched_sends_to_neighbors.filter (fun e => decide (100 ≤ now - e.2.1))
  let sw2 := sendFold now (ready.map (fun e => (e.1, e.2.2))) sw
  ({ sw2.1 with batched_sends_to_neighbors :=
      (sw2.1.batched_sends_to_neighbors.filter (fun e => decide (e.1 ∉ ready.map Prod.fst))) },
   sw2.2)

/-- The (neighbor, batch) pairs collected by the resend loop of
`Broadcast::tick`: every unacked entry at least 500 ms old. -/
def Broadcast.resendList (now : Nat) (s : Broadcast) : List (String × List Nat) :=
  s.neighbor_messages_not_acked.foldr
    (fun e acc =>
      ((e.2.filter (fun p => decide (500 ≤ now - p.2.time_sent))).map (fun p => (e.1, p.1))) ++ acc)
    []

/-- Second half of `Broadcast::tick`: resend every unacked batch at least
500 ms old. -/
def Broadcast.resendPhase (now : Nat) (sw : Broadcast × MessageWriter BroadcastPayload) :
    Broadcast × MessageWriter BroadcastPayload :=
  sendFold now (Broadcast.resendList now sw.1) sw

/-- `Broadcast::tick` from src/broadcast/src/main.rs: flush coalescing
batches older than 100 ms, then resend unacked batches older than 500 ms. -/
def Broadcast.tick (now : Nat) (sw : Broadcast × MessageWriter BroadcastPayload) :
    Broadcast × MessageWriter BroadcastPayload :=
  Broadcast.resendPhase now (Broadcast.flushPhase now sw)

/-- Lookup of `unacked[neighbor][batch]`. -/
def Broadcast.lookupUnacked (s : Broadcast) (nb : String) (batch : List Nat) : Option AckContext :=
  (alookup nb s.neighbor_messages_not_acked).bind (fun inner => alookup batch inner)

/-- The envelope emitted by `batched_send_to_neighbor` for a batch. -/
def mkBatchedSend (src nb : String) (batch : List Nat) (mid : Nat) : Message BroadcastPayload :=
  ⟨src, nb, ⟨some mid, none, BroadcastPayload.broadcast_batched batch⟩⟩

/-- `KVPayload` from src/maelstrom/src/app/services/seq_kv.rs (wire tags
`read`, `read_ok`, `write`, `write_ok`, `cas`, `cas_ok`, `error`). -/
inductive KVPayload (K V : Type) where
  | read (key : K)
  | read_ok (value : V)
  | write (key : K) (value : V)
  | write_ok
  | cas (key : K) (from_ : V) (to_ : V) (create_if_not_exists : Option Bool)
  | cas_ok
  | error (code : Nat) (text : String)
deriving DecidableEq, Repr

/-- The request payload sent by `SeqKV::read`. -/
def SeqKV.read_request {K : Type} (key : K) : KVPayload K Unit :=
  KVPayload.read key

/-- The response mapping of `SeqKV::read`: `error` with code 20
(key-does-not-exist) yields the absent value, `read_ok` yields the carried
value, anything else is the `bail!` fault. The Rust guard
`Error { code, .. } if code == 20` is the `if code = 20` test. -/
def SeqKV.read_response {V : Type} (resp : KVPayload Unit V) : Except String (Option V) :=
  match resp with
  | KVPayload.error code _ =>
      if code = 20 then Except.ok none
      else Except.error "Expected ReadOk in response to Read."
  | KVPayload.read_ok v => Except.ok (some v)
  | _ => Except.error "Expected ReadOk in response to Read."

/-- The request payload sent by `SeqKV::compare_and_swap`:
`create_if_not_exists` is always `Some(true)`. -/
def SeqKV.cas_request {K V : Type} (key : K) (from_ : V) (to_ : V) : KVPayload K V :=
  KVPayload.cas key from_ to_ (some true)

/-- The response mapping of `SeqKV::compare_and_swap`: `error` with code 22
(precondition-failed) yields `false`, `cas_ok` yields `true`, anything else
is the `bail!` fault. -/
def SeqKV.cas_response (resp : KVPayload Unit Unit) : Except String Bool :=
  match resp with
  | KVPayload.error code _ =>
      if code = 22 then Except.ok false
      else Except.error "Expected CompareAndSetOk in response to CompareAndSet."
  | KVPayload.cas_ok => Except.ok true
  | _ => Except.error "Expected CompareAndSetOk in response to CompareAndSet."

/-- A raw JSON-ish payload as the runtime sees it before typed decoding: the
wire tag `type` plus the remaining body fields (restricted to the field
shapes the broadcast payloads use). -/
inductive RawField where
  | num (n : Nat)
  | arr (ns : List Nat)
  | str (s : String)
  | topo (t : List (String × List String))
deriving DecidableEq, Repr

/-- The flattened, type-tagged payload portion of a wire body. -/
structure RawPayload where
  ty : String
  fields : List (String × RawField)
deriving DecidableEq, Repr

/-- Serde-style decoding of `BroadcastPayload` from the tagged raw payload,
as derived by `#[serde(tag = "type", rename_all = "snake_case")]` on the
enum in src/broadcast/src/main.rs: an undeclared tag (or a missing/mistyped
field) fails. -/
def BroadcastPayload.fromRaw (p : RawPayload) : Option BroadcastPayload :=
  if p.ty = "broadcast" then
    match alookup "message" p.fields with
    | some (RawField.num m) => some (BroadcastPayload.broadcast m)
    | _ => none
  else if p.ty = "broadcast_ok" then some BroadcastPayload.broadcast_ok
  else if p.ty = "broadcast_batched" then
    match alookup "messages" p.fields with
    | some (RawField.arr ms) => some (BroadcastPayload.broadcast_batched ms)
    | _ => none
  else if p.ty = "broadcast_batched_ok" then some BroadcastPayload.broadcast_batched_ok
  else if p.ty = "read" then some BroadcastPayload.read
  else if p.ty = "read_ok" then
    match alookup "messages" p.fields with
    | some (RawField.arr ms) => some (BroadcastPayload.read_ok ms)
    | _ => none
  else if p.ty = "topology" then
    match alookup "topology" p.fields with
    | some (RawField.topo t) => some (BroadcastPayload.topology t)
    | _ => none
  else if p.ty = "topology_ok" then some BroadcastPayload.topology_ok
  else none

/-- `Message::into_payload` from src/maelstrom/src/protocol.rs: convert the
raw payload with the app's decoder; a decode failure is the
"Couldn't convert payload type!" error. -/
def Message.into_payload {α : Type} (m : Message RawPayload) (dec : RawPayload → Option α) :
    Except String (Message α) :=
  match dec m.body.payload with
  | some p => Except.ok ⟨m.src, m.dst, ⟨m.body.msg_id, m.body.in_reply_to, p⟩⟩
  | none => Except.error "Couldn't convert payload type!"

/-- The outcome of one iteration of the app task loop in `event_loop`
(src/maelstrom/src/app.rs) for one received envelope. -/
inductive StepOutcome (σ α : Type) where
  | continued (app : σ) (w : MessageWriter α)
  | errored (err : String)
deriving DecidableEq, Repr

/-- The app task loop body for a received envelope, from `event_loop`
(src/maelstrom/src/app.rs): `message.into_payload::<TPayload>()?` followed
by `app.handle(message, writer)?`. Either `?` makes the task return the
error, which ends the loop; `errored` models that exit (no reply is
emitted on the decode-failure path because `handle` was never reached). -/
def app_task_step {σ α : Type} (dec : RawPayload → Option α)
    (handle : Message α → σ → MessageWriter α → Except String (σ × MessageWriter α))
    (app : σ) (w : MessageWriter α) (m : Message RawPayload) : StepOutcome σ α :=
  match m.into_payload dec with
  | Except.error e => StepOutcome.errored e
  | Except.ok msg =>
    match handle msg app w with
    | Except.error e => StepOutcome.errored e
    | Except.ok aw => StepOutcome.continued aw.1 aw.2

/-- One outbound emission through the writer: `reply_to`, `send_to`, or the
send half of `send_and_receive` — the three call sites of
`fetch_add(1, SeqCst)` on the `msg_id` counter in src/maelstrom/src/app.rs. -/
inductive EmitOp (α : Type) where
  | reply (received : Message α) (payload : α)
  | fire (dst : String) (payload : α)
  | rpc (dst : String) (payload : α)

/-- Apply one emission to the writer. -/
def applyEmit {α : Type} (w : MessageWriter α) : EmitOp α → MessageWriter α
  | EmitOp.reply r p => (w.reply_to r p).1
  | EmitOp.fire d p => (w.send_to d p).1
  | EmitOp.rpc d p => (w.send_and_receive_send d p).1

/-- A run of the node: a sequence of emissions through the writer. -/
def runOps {α : Type} (w : MessageWriter α) (ops : List (EmitOp α)) : MessageWriter α :=
  ops.foldl applyEmit w

/-- The `msg_id` values carried on the emitted envelopes, in emission
order. -/
def emittedMsgIds {α : Type} (w : MessageWriter α) : List Nat :=
  w.sent.filterMap (fun m => m.body.msg_id)

/-- Modelled from the spec: the partition claimed in §4.7 — "exactly five
contiguous chunks (`chunk_size = floor(|node_ids| / 5)`; if the last chunk
receives the remainder it must still be the last chunk)". -/
def specChunks5 {α : Type} (l : List α) : List (List α) :=
  let k := l.length / 5
  [l.take k, (l.drop k).take k, (l.drop (2 * k)).take k, (l.drop (3 * k)).take k,
   l.drop (4 * k)]

/-- Modelled from the spec: the claimed neighbor list and
`always_broadcast` flag of `new(node_id, node_ids)`, computed over the
five-chunk partition of `specChunks5` with the leader/member rule and the
removal of `node_id` itself. -/
def specNew (node_id : String) (node_ids : List String) : Option (List String × Bool) :=
  let cs := specChunks5 node_ids
  match position (fun c => decide (node_id ∈ c)) cs with
  | none => none
  | some chunk_index =>
    match cs[chunk_index]? with
    | none => none
    | some chunk =>
      if position (fun n => decide (n = node_id)) chunk = some 0 then
        (cs[(chunk_index + 1) % cs.length]?).map
          (fun next_chunk => (next_chunk.filter (fun n => decide (n ≠ node_id)), true))
      else some (chunk.filter (fun n => decide (n ≠ node_id)), false)

/-- The C2 property of `Broadcast::handle`, stated over the embedding: a
`broadcast{m}` envelope inserts `m` into `messages_seen`, enqueues `m` to
every neighbor's pending batch (starting the batch at the current time when
absent) exactly when `m` was newly inserted and the source is a client or
`always_broadcast` is set, and is answered by exactly one `broadcast_ok`
reply; a `broadcast_batched{ms}` envelope applies the same per-value rule
(`handle_message`) to each value in order and is answered by exactly one
`broadcast_batched_ok` reply. -/
def C2Post (now : Nat) (s : Broadcast) (w : MessageWriter BroadcastPayload)
    (e : Message BroadcastPayload) : Prop :=
  (∀ m, e.body.payload = BroadcastPayload.broadcast m →
    ((Broadcast.handle now e s w).1.messages_seen =
      (if m ∈ s.messages_seen then s.messages_seen else s.messages_seen ++ [m])) ∧
    ((m ∉ s.messages_seen ∧ (isClient e.src = true ∨ s.always_broadcast = true)) →
      (∀ nb ∈ s.neighbors,
        alookup nb (Broadcast.handle now e s w).1.batched_sends_to_neighbors =
          some (match alookup nb s.batched_sends_to_neighbors with
                | none => (now, [m])
                | some (t, ms) => (t, ms ++ [m]))) ∧
      (∀ nb, nb ∉ s.neighbors →
        alookup nb (Broadcast.handle now e s w).1.batched_sends_to_neighbors =
          alookup nb s.batched_sends_to_neighbors)) ∧
    ((m ∈ s.messages_seen ∨ (isClient e.src = false ∧ s.always_broadcast = false)) →
      (Broadcast.handle now e s w).1.batched_sends_to_neighbors =
        s.batched_sends_to_neighbors) ∧
    ((Broadcast.handle now e s w).2.sent =
      w.sent ++ [⟨w.node_id, e.src, ⟨some (w.msg_id % u32Mod), e.body.msg_id,
        BroadcastPayload.broadcast_ok⟩⟩])) ∧
  (∀ ms, e.body.payload = BroadcastPayload.broadcast_batched ms →
    (Broadcast.handle now e s w).1 =
      ms.foldl (fun st mm => Broadcast.handle_message now st e mm) s ∧
    (Broadcast.handle now e s w).2.sent =
      w.sent ++ [⟨w.node_id, e.src, ⟨some (w.msg_id % u32Mod), e.body.msg_id,
        BroadcastPayload.broadcast_batched_ok⟩⟩])

/-- A batch send to `nb` with contents `b` has been recorded: some outbound
`msg_id` is stored in `unacked[nb][b]` with `time_sent = now`, and the
matching `broadcast_batched` envelope is among the emitted ones. -/
def SentP (now : Nat) (src nb : String) (b : List Nat)
    (sw : Broadcast × MessageWriter BroadcastPayload) : Prop :=
  ∃ mid, Broadcast.lookupUnacked sw.1 nb b = some ⟨mid, now⟩ ∧
    mkBatchedSend src nb b mid ∈ sw.2.sent

/-- The C4 property: a tick at time `now` resends every unacked batch whose
age is at least 500 ms (the exact stored batch, to its neighbor, refreshing
the stored `time_sent` and `msg_id` to the resend ones) and removes no
unacked entry; an unacked entry is removed exactly by handling a
`broadcast_batched_ok` envelope from that neighbor whose `in_reply_to`
equals the entry's stored `msg_id` (other entries of that neighbor, entries
of other neighbors, and all entries under any other payload are kept). -/
def C4Post (now : Nat) (s : Broadcast) (w : MessageWriter BroadcastPayload) : Prop :=
  (∀ nb batch ctx, Broadcast.lookupUnacked s nb batch = some ctx →
      500 ≤ now - ctx.time_sent →
      ∃ mid, Broadcast.lookupUnacked (Broadcast.tick now (s, w)).1 nb batch =
          some ⟨mid, now⟩ ∧
        mkBatchedSend w.node_id nb batch mid ∈ (Broadcast.tick now (s, w)).2.sent) ∧
  (∀ nb batch, (Broadcast.lookupUnacked s nb batch).isSome = true →
      (Broadcast.lookupUnacked (Broadcast.tick now (s, w)).1 nb batch).isSome = true) ∧
  (∀ e : Message BroadcastPayload, ∀ r : Nat,
      e.body.payload = BroadcastPayload.broadcast_batched_ok →
      e.body.in_reply_to = some r →
      ((((alookup e.src s.neighbor_messages_not_acked).getD []).map Prod.fst).Nodup) →
      ((((alookup e.src s.neighbor_messages_not_acked).getD []).map
          (fun p => p.2.message_id)).Nodup) →
      ∀ batch ctx, Broadcast.lookupUnacked s e.src batch = some ctx →
        Broadcast.lookupUnacked (Broadcast.handle now e s w).1 e.src batch =
          (if ctx.message_id = r then none else some ctx)) ∧
  (∀ e : Message BroadcastPayload,
      e.body.payload ≠ BroadcastPayload.broadcast_batched_ok →
      (Broadcast.handle now e s w).1.neighbor_messages_not_acked =
        s.neighbor_messages_not_acked) ∧
  (∀ e : Message BroadcastPayload, ∀ nb batch,
      e.body.payload = BroadcastPayload.broadcast_batched_ok → nb ≠ e.src →
      Broadcast.lookupUnacked (Broadcast.handle now e s w).1 nb batch =
        Broadcast.lookupUnacked s nb batch)

/-- The C5 property: a tick at time `now` flushes exactly the pending
coalescing batches that are at least 100 ms old — each flushed batch is
removed from `batched_sends_to_neighbors` and recorded (or refreshed, never
duplicated) in `unacked[neighbor]` under the exact ordered batch contents
with the emission time and outbound `msg_id` — while a younger pending
batch stays untouched and no `broadcast_batched` envelope is emitted to its
neighbor by the flush half of the tick. -/
def C5Post (now : Nat) (s : Broadcast) (w : MessageWriter BroadcastPayload) : Prop :=
  (∀ nb t msgs, alookup nb s.batched_sends_to_neighbors = some (t, msgs) →
      100 ≤ now - t →
      alookup nb (Broadcast.tick now (s, w)).1.batched_sends_to_neighbors = none ∧
      ∃ mid, mkBatchedSend w.node_id nb msgs mid ∈ (Broadcast.tick now (s, w)).2.sent ∧
        Broadcast.lookupUnacked (Broadcast.tick now (s, w)).1 nb msgs = some ⟨mid, now⟩) ∧
  (∀ nb t msgs, alookup nb s.batched_sends_to_neighbors = some (t, msgs) →
      now - t < 100 →
      alookup nb (Broadcast.flushPhase now (s, w)).1.batched_sends_to_neighbors =
        some (t, msgs) ∧
      (∀ m : Message BroadcastPayload, m ∈ (Broadcast.flushPhase now (s, w)).2.sent →
        m ∉ w.sent → m.dst ≠ nb)) ∧
  (∀ nb, ((((alookup nb s.neighbor_messages_not_acked).getD []).map Prod.fst).Nodup) →
      ((((alookup nb
          (Broadcast.tick now (s, w)).1.neighbor_messages_not_acked).getD []).map
            Prod.fst).Nodup))

theorem alookup_aupdate_self {κ ν : Type} [DecidableEq κ] (k : κ) (f : Option ν → ν)
    (l : List (κ × ν)) : alookup k (aupdate k f l) = some (f (alookup k l)) := by
  induction l with
  | nil => simp [alookup, aupdate]
  | cons p rest ih =>
      by_cases h : p.1 = k
      · simp [alookup, aupdate, h]
      · simp [alookup, aupdate, h, ih]

theorem alookup_aupdate_ne {κ ν : Type} [DecidableEq κ] {k k' : κ} (f : Option ν → ν)
    (l : List (κ × ν)) (h : k' ≠ k) : alookup k' (aupdate k f l) = alookup k' l := by
  induction l with
  | nil => simp [alookup, aupdate, Ne.symm h]
  | cons p rest ih =>
      simp only [aupdate]
      by_cases hp : p.1 = k
      · simp [alookup, hp, Ne.symm h]
      · simp only [if_neg hp, alookup]
        by_cases hp' : p.1 = k'
        · simp [hp']
        · simp [hp', ih]

theorem alookup_aremove_self {κ ν : Type} [DecidableEq κ] (k : κ) (l : List (κ × ν)) :
    alookup k (aremove k l) = none := by
  induction l with
  | nil => simp [alookup, aremove]
  | cons p rest ih =>
      by_cases h : p.1 = k
      · simpa [aremove, h] using ih
      · simp [aremove, h, alookup, ih]

theorem alookup_aremove_ne {κ ν : Type} [DecidableEq κ] {k k' : κ} (l : List (κ × ν))
    (h : k' ≠ k) : alookup k' (aremove k l) = alookup k' l := by
  induction l with
  | nil => simp [alookup, aremove]
  | cons p rest ih =>
      by_cases hp : p.1 = k
      · have hne : ¬ p.1 = k' := by
          intro hc
          exact h (hc ▸ hp ▸ rfl)
        simp [aremove, hp, alookup, hne, ih, Ne.symm h]
      · by_cases hp' : p.1 = k'
        · simp [aremove, hp, alookup, hp', ih, h]
        · simp [aremove, hp, alookup, hp', ih, h]

theorem alookup_mem {κ ν : Type} [DecidableEq κ] {k : κ} {v : ν} {l : List (κ × ν)}
    (h : alookup k l = some v) : (k, v) ∈ l := by
  induction l with
  | nil => simp [alookup] at h
  | cons p rest ih =>
      cases p with
      | mk a b =>
          by_cases hp : a = k
          · simp [alookup, hp] at h
            subst hp
            subst h
            exact List.mem_cons_self _ _
          · simp [alookup, hp] at h
            exact List.mem_cons_of_mem _ (ih h)

theorem aupdate_keys {κ ν : Type} [DecidableEq κ] (k : κ) (f : Option ν → ν)
    (l : List (κ × ν)) :
    (aupdate k f l).map Prod.fst =
      if k ∈ l.map Prod.fst then l.map Prod.fst else l.map Prod.fst ++ [k] := by
  induction l with
  | nil => simp [aupdate]
  | cons p rest ih =>
      by_cases hp : p.1 = k
      · simp [aupdate, hp]
      · simp only [aupdate, if_neg hp, List.map_cons, ih]
        by_cases hm : k ∈ rest.map Prod.fst
        · simp [hm, Ne.symm hp, hp]
        · simp [hm, Ne.symm hp, hp]

theorem chunksFuel_nil {α : Type} (k f : Nat) : chunksFuel k f ([] : List α) = [] := by
  cases f <;> rfl

theorem chunksFuel_congr {α : Type} {k : Nat} (hk : 1 ≤ k) :
    ∀ (f f' : Nat) (l : List α), l.length ≤ f → l.length ≤ f' →
      chunksFuel k f l = chunksFuel k f' l := by
  intro f
  induction f with
  | zero =>
      intro f' l hf _
      cases l with
      | nil => rw [chunksFuel_nil, chunksFuel_nil]
      | cons x xs => simp at hf
  | succ g ih =>
      intro f' l hf hf'
      cases l with
      | nil => rw [chunksFuel_nil, chunksFuel_nil]
      | cons x xs =>
          cases f' with
          | zero => simp at hf'
          | succ g' =>
              simp only [chunksFuel]
              congr 1
              apply ih
              · rw [List.length_drop]
                simp only [List.length_cons] at hf ⊢
                omega
              · rw [List.length_drop]
                simp only [List.length_cons] at hf' ⊢
                omega

theorem chunks_cons {α : Type} {k : Nat} (hk : 1 ≤ k) (x : α) (xs : List α) :
    chunks k (x :: xs) = (x :: xs).take k :: chunks k ((x :: xs).drop k) := by
  show chunksFuel k (x :: xs).length (x :: xs) = _
  simp only [List.length_cons, chunksFuel]
  congr 1
  apply chunksFuel_congr hk
  · rw [List.length_drop]
    simp only [List.length_cons]
    omega
  · exact le_rfl

theorem chunksFuel_join {α : Type} {k : Nat} (hk : 1 ≤ k) :
    ∀ (f : Nat) (l : List α), l.length ≤ f → (chunksFuel k f l).flatten = l := by
  intro f
  induction f with
  | zero =>
      intro l hf
      cases l with
      | nil => rfl
      | cons x xs => simp at hf
  | succ g ih =>
      intro l hf
      cases l with
      | nil => rfl
      | cons x xs =>
          simp only [chunksFuel, List.flatten_cons]
          rw [ih]
          · exact List.take_append_drop k (x :: xs)
          · rw [List.length_drop]
            simp only [List.length_cons] at hf ⊢
            omega

theorem chunks_join {α : Type} {k : Nat} (hk : 1 ≤ k) (l : List α) :
    (chunks k l).flatten = l :=
  chunksFuel_join hk l.length l le_rfl

theorem chunksFuel_sizes {α : Type} {k : Nat} (hk : 1 ≤ k) :
    ∀ (f : Nat) (l : List α), l.length ≤ f → ∀ c ∈ chunksFuel k f l, c ≠ [] ∧ c.length ≤ k := by
  intro f
  induction f with
  | zero =>
      intro l hf c hc
      cases l with
      | nil => simp [chunksFuel_nil] at hc
      | cons x xs => simp at hf
  | succ g ih =>
      intro l hf c hc
      cases l with
      | nil => simp [chunksFuel_nil] at hc
      | cons x xs =>
          simp only [chunksFuel, List.mem_cons] at hc
          rcases hc with hc | hc
          · subst hc
            constructor
            · cases k with
              | zero => omega
              | succ j => simp [List.take]
            · rw [List.length_take]
              omega
          · apply ih ((x :: xs).drop k) _ c hc
            rw [List.length_drop]
            simp only [List.length_cons] at hf ⊢
            omega

theorem chunks_sizes {α : Type} {k : Nat} (hk : 1 ≤ k) (l : List α) :
    ∀ c ∈ chunks k l, c ≠ [] ∧ c.length ≤ k :=
  chunksFuel_sizes hk l.length l le_rfl

theorem chunksFuel_full {α : Type} {k : Nat} (hk : 1 ≤ k) :
    ∀ (f : Nat) (l : List α), l.length ≤ f → ∀ (i : Nat) (c : List α),
      i + 1 < (chunksFuel k f l).length → (chunksFuel k f l)[i]? = some c → c.length = k := by
  intro f
  induction f with
  | zero =>
      intro l hf i c hi _
      cases l with
      | nil => simp [chunksFuel_nil] at hi
      | cons x xs => simp at hf
  | succ g ih =>
      intro l hf i c hi hc
      cases l with
      | nil => simp [chunksFuel_nil] at hi
      | cons x xs =>
          simp only [chunksFuel] at hi hc
          cases i with
          | zero =>
              rw [List.getElem?_cons_zero] at hc
              have hrest : chunksFuel k g ((x :: xs).drop k) ≠ [] := by
                intro h0
                rw [h0] at hi
                simp at hi
              have hdrop : (x :: xs).drop k ≠ [] := by
                intro h0
                rw [h0, chunksFuel_nil] at hrest
                exact hrest rfl
              have hklt : k < (x :: xs).length := by
                by_contra hgt
                push_neg at hgt
                exact hdrop (List.drop_eq_nil_of_le hgt)
              cases hc
              rw [List.length_take]
              omega
          | succ j =>
              rw [List.getElem?_cons_succ] at hc
              simp only [List.length_cons] at hi
              apply ih ((x :: xs).drop k) _ j c _ hc
              · rw [List.length_drop]
                simp only [List.length_cons] at hf ⊢
                omega
              · omega

theorem chunks_full {α : Type} {k : Nat} (hk : 1 ≤ k) (l : List α) :
    ∀ (i : Nat) (c : List α), i + 1 < (chunks k l).length →
      (chunks k l)[i]? = some c → c.length = k :=
  chunksFuel_full hk l.length l le_rfl

theorem position_isSome_of_mem {α : Type} {p : α → Bool} {x : α} {l : List α}
    (hmem : x ∈ l) (hp : p x = true) : (position p l).isSome := by
  induction l with
  | nil => simp at hmem
  | cons y ys ih =>
      by_cases hy : p y = true
      · simp [position, hy]
      · rcases List.mem_cons.mp hmem with h | h
        · exact absurd (h ▸ hp) hy
        · have h2 := ih h
          simp only [position, if_neg hy]
          cases hpos : position p ys with
          | none => rw [hpos] at h2; simp at h2
          | some j => simp

theorem position_spec {α : Type} {p : α → Bool} : ∀ {l : List α} {i : Nat},
    position p l = some i → ∃ x, l[i]? = some x ∧ p x = true := by
  intro l
  induction l with
  | nil => intro i h; simp [position] at h
  | cons y ys ih =>
      intro i h
      by_cases hy : p y = true
      · simp [position, hy] at h
        subst h
        exact ⟨y, by simp, hy⟩
      · simp only [position, if_neg hy] at h
        cases hpos : position p ys with
        | none => rw [hpos] at h; simp at h
        | some j =>
            rw [hpos] at h
            simp at h
            subst h
            obtain ⟨x, hx, hpx⟩ := ih hpos
            exact ⟨x, by simpa [List.getElem?_cons_succ] using hx, hpx⟩

theorem not_mem_filter_ne_self (x : String) (l : List String) :
    x ∉ l.filter (fun n => decide (n ≠ x)) := by
  intro hmem
  have := List.of_mem_filter hmem
  simp at this

/-- Helper: for at least five node identifiers containing `node_id`,
`Broadcast.new` succeeds, and its result is determined by the chunk
containing `node_id`, the position of `node_id` inside it, and (for the
leader) the wrap-around next chunk. -/
theorem Broadcast.new_unfold (node_id : String) (node_ids : List String)
    (h5 : 5 ≤ node_ids.length) (hmem : node_id ∈ node_ids) :
    ∃ ci chunk ii,
      position (fun c => decide (node_id ∈ c)) (chunks (node_ids.length / 5) node_ids) = some ci ∧
      (chunks (node_ids.length / 5) node_ids)[ci]? = some chunk ∧
      node_id ∈ chunk ∧
      position (fun n => decide (n = node_id)) chunk = some ii ∧
      ((ii = 0 ∧ ∃ nc,
          (chunks (node_ids.length / 5) node_ids)[(ci + 1) %
            (chunks (node_ids.length / 5) node_ids).length]? = some nc ∧
          Broadcast.new node_id node_ids =
            some ⟨[], nc.filter (fun n => decide (n ≠ node_id)), true, [], []⟩) ∨
       (ii ≠ 0 ∧ Broadcast.new node_id node_ids =
            some ⟨[], chunk.filter (fun n => decide (n ≠ node_id)), false, [], []⟩)) := by
  have hkpos : 0 < node_ids.length / 5 := (Nat.one_le_div_iff (by omega)).mpr h5
  have hjoin : (chunks (node_ids.length / 5) node_ids).flatten = node_ids :=
    chunks_join hkpos node_ids
  obtain ⟨c, hc_mem, hnc⟩ := List.mem_flatten.mp (show node_id ∈ _ by rw [hjoin]; exact hmem)
  have hptrue : (fun c => decide (node_id ∈ c)) c = true := by simpa using hnc
  have hpos1 := position_isSome_of_mem (p := fun c => decide (node_id ∈ c)) hc_mem hptrue
  obtain ⟨ci, hci⟩ := Option.isSome_iff_exists.mp hpos1
  obtain ⟨chunk, hchunk, hpchunk⟩ := position_spec hci
  have hmemchunk : node_id ∈ chunk := by simpa using hpchunk
  have hptrue2 : (fun n => decide (n = node_id)) node_id = true := by simp
  have hpos2 := position_isSome_of_mem (p := fun n => decide (n = node_id)) hmemchunk hptrue2
  obtain ⟨ii, hii⟩ := Option.isSome_iff_exists.mp hpos2
  refine ⟨ci, chunk, ii, hci, hchunk, hmemchunk, hii, ?_⟩
  have hcs_ne : chunks (node_ids.length / 5) node_ids ≠ [] := List.ne_nil_of_mem hc_mem
  have hlen : 0 < (chunks (node_ids.length / 5) node_ids).length := List.length_pos.mpr hcs_ne
  by_cases hz : ii = 0
  · left
    refine ⟨hz, ?_⟩
    have hidx : (ci + 1) % (chunks (node_ids.length / 5) node_ids).length <
        (chunks (node_ids.length / 5) node_ids).length := Nat.mod_lt _ hlen
    refine ⟨(chunks (node_ids.length / 5) node_ids)[(ci + 1) %
        (chunks (node_ids.length / 5) node_ids).length], List.getElem?_eq_getElem hidx, ?_⟩
    subst hz
    simp only [Broadcast.new, if_neg (by omega : ¬ node_ids.length / 5 = 0), hci, hchunk, hii,
      List.getElem?_eq_getElem hidx]
    simp
  · right
    refine ⟨hz, ?_⟩
    simp only [Broadcast.new, if_neg (by omega : ¬ node_ids.length / 5 = 0), hci, hchunk, hii]
    simp [hz]

/-- The amended C1 property (what `Broadcast::new` actually guarantees):
`node_ids` is partitioned into contiguous chunks of size
`floor(|node_ids| / 5)` whose concatenation is `node_ids`, every chunk
except possibly the last having exactly that size and the last being a
nonempty remainder chunk of at most that size (so there are exactly five
chunks only when 5 divides `|node_ids|`); the node's own chunk is the first
one containing it; at index 0 of its chunk the node is a leader whose
neighbors are the wrap-around next chunk with `always_broadcast = true`,
otherwise its neighbors are its own chunk with `always_broadcast = false`;
and `node_id` itself is absent from the neighbor list. -/
def C1AmendedPost (node_id : String) (node_ids : List String) : Prop :=
  (chunks (node_ids.length / 5) node_ids).flatten = node_ids ∧
  (∀ c ∈ chunks (node_ids.length / 5) node_ids, c ≠ [] ∧ c.length ≤ node_ids.length / 5) ∧
  (∀ (i : Nat) (c : List String), i + 1 < (chunks (node_ids.length / 5) node_ids).length →
      (chunks (node_ids.length / 5) node_ids)[i]? = some c →
      c.length = node_ids.length / 5) ∧
  ∃ st ci chunk, Broadcast.new node_id node_ids = some st ∧
    node_id ∉ st.neighbors ∧
    position (fun c => decide (node_id ∈ c)) (chunks (node_ids.length / 5) node_ids) = some ci ∧
    (chunks (node_ids.length / 5) node_ids)[ci]? = some chunk ∧ node_id ∈ chunk ∧
    ((position (fun n => decide (n = node_id)) chunk = some 0 →
        st.always_broadcast = true ∧
        ∃ nc, (chunks (node_ids.length / 5) node_ids)[(ci + 1) %
            (chunks (node_ids.length / 5) node_ids).length]? = some nc ∧
          st.neighbors = nc.filter (fun n => decide (n ≠ node_id))) ∧
     (∀ j, position (fun n => decide (n = node_id)) chunk = some j → j ≠ 0 →
        st.always_broadcast = false ∧
        st.neighbors = chunk.filter (fun n => decide (n ≠ node_id))))

/-- C1 (corrected): the original claim — exactly five chunks with any
remainder going to the last (larger) chunk — fails on the code: with six
node identifiers `chunks(6 / 5) = chunks(1)` yields six chunks, and node
"n5" becomes its own chunk's leader (neighbors = wrap-around chunk
`["n0"]`, `always_broadcast = true`) where the claimed five-chunk partition
would make it a member of `["n4","n5"]` (neighbors `["n4"]`,
`always_broadcast = false`). `specNew` is the claim's own partition rule,
modelled from the spec. -/
theorem c1_counterexample :
    (chunks (List.length ["n0", "n1", "n2", "n3", "n4", "n5"] / 5)
      ["n0", "n1", "n2", "n3", "n4", "n5"]).length = 6 ∧
    (Broadcast.new "n5" ["n0", "n1", "n2", "n3", "n4", "n5"]).map
        (fun st => (st.neighbors, st.always_broadcast)) = some (["n0"], true) ∧
    specNew "n5" ["n0", "n1", "n2", "n3", "n4", "n5"] = some (["n4"], false) ∧
    (some ((["n0"], true) : List String × Bool) ≠
      some ((["n4"], false) : List String × Bool)) := by
  refine ⟨by decide, by decide, by decide, by decide⟩

/-- C1 (amended, proved): `new(node_id, node_ids)` partitions `node_ids`
into contiguous chunks of size `floor(|node_ids| / 5)` with a shorter final
remainder chunk when the size does not divide `|node_ids|`; the leader /
member neighbor rule and the self-removal hold as claimed. -/
theorem c1_theorem (node_id : String) (node_ids : List String)
    (h5 : 5 ≤ node_ids.length) (hmem : node_id ∈ node_ids) :
    C1AmendedPost node_id node_ids := by
  obtain ⟨ci, chunk, ii, hci, hchunk, hmemchunk, hii, hcase⟩ :=
    Broadcast.new_unfold node_id node_ids h5 hmem
  have hkpos : 0 < node_ids.length / 5 := (Nat.one_le_div_iff (by omega)).mpr h5
  refine ⟨chunks_join hkpos node_ids, chunks_sizes hkpos node_ids, chunks_full hkpos node_ids, ?_⟩
  rcases hcase with ⟨hz, nc, hnc, hnew⟩ | ⟨hz, hnew⟩
  · refine ⟨_, ci, chunk, hnew, not_mem_filter_ne_self node_id nc, hci, hchunk, hmemchunk,
      ?_, ?_⟩
    · intro _
      exact ⟨rfl, nc, hnc, rfl⟩
    · intro j hj hjne
      rw [hii, hz] at hj
      exact absurd (Option.some_injective _ hj).symm hjne
  · refine ⟨_, ci, chunk, hnew, not_mem_filter_ne_self node_id chunk, hci, hchunk, hmemchunk,
      ?_, ?_⟩
    · intro h0
      rw [hii] at h0
      exact absurd (Option.some_injective _ h0) hz
    · intro j _ _
      exact ⟨rfl, rfl⟩

/-- Witness for C1 (amended) at a concrete five-node cluster. -/
theorem c1_witness :
    (5 ≤ List.length ["n1", "n2", "n3", "n4", "n5"] ∧
      "n3" ∈ ["n1", "n2", "n3", "n4", "n5"]) ∧
    C1AmendedPost "n3" ["n1", "n2", "n3", "n4", "n5"] :=
  ⟨⟨by decide, by decide⟩, c1_theorem "n3" ["n1", "n2", "n3", "n4", "n5"] (by decide) (by decide)⟩

/-- C10: with fewer than five node identifiers the computed chunk size
`floor(|node_ids| / 5)` is 0 and `chunks(0)` panics, so construction is
undefined (modelled as `none`); with at least five identifiers containing
`node_id`, construction succeeds — the implicit precondition is
`|node_ids| ≥ 5`. -/
theorem c10_theorem (node_id : String) (node_ids : List String) :
    (node_ids.length < 5 → Broadcast.new node_id node_ids = none) ∧
    (5 ≤ node_ids.length → node_id ∈ node_ids → (Broadcast.new node_id node_ids).isSome) := by
  constructor
  · intro h
    simp [Broadcast.new, Nat.div_eq_of_lt h]
  · intro h5 hmem
    obtain ⟨ci, chunk, ii, _, _, _, _, hcase⟩ := Broadcast.new_unfold node_id node_ids h5 hmem
    rcases hcase with ⟨_, nc, _, hnew⟩ | ⟨_, hnew⟩ <;> simp [hnew]

/-- Witness for C10: a three-node cluster panics, a five-node cluster
constructs. -/
theorem c10_witness :
    (List.length ["n1", "n2", "n3"] < 5 ∧ Broadcast.new "n1" ["n1", "n2", "n3"] = none) ∧
    (5 ≤ List.length ["n1", "n2", "n3", "n4", "n5"] ∧
      "n1" ∈ ["n1", "n2", "n3", "n4", "n5"] ∧
      (Broadcast.new "n1" ["n1", "n2", "n3", "n4", "n5"]).isSome) :=
  ⟨⟨by decide, ( c10_theorem "n1" ["n1", "n2", "n3"]).1 (by decide)⟩,
   ⟨by decide, by decide,
    ( c10_theorem "n1" ["n1", "n2", "n3", "n4", "n5"]).2 (by decide) (by decide)⟩⟩

/-- C8: for every received envelope and payload, `reply_to` emits exactly
one envelope whose `src` is this node's identity, whose `dst` is the
received envelope's `src`, whose `in_reply_to` is the received envelope's
`msg_id`, and whose `msg_id` is the freshly assigned identifier that is
also returned to the caller (the counter advancing by one, modulo 2^32). -/
theorem c8_theorem {α β : Type} (w : MessageWriter α) (r : Message β) (p : α) :
    (w.reply_to r p).1.sent =
      w.sent ++ [⟨w.node_id, r.src, ⟨some (w.reply_to r p).2, r.body.msg_id, p⟩⟩] ∧
    (w.reply_to r p).2 = w.msg_id % u32Mod ∧
    (w.reply_to r p).1.msg_id = (w.msg_id + 1) % u32Mod ∧
    (w.reply_to r p).1.node_id = w.node_id :=
  ⟨rfl, rfl, rfl, rfl⟩

/-- C9: the Seq-KV client's `read` maps `error` code 20 to the absent
value, `read_ok` to the carried value, and every other response payload to
a fault; `compare_and_swap` sends `cas` with `create_if_not_exists = true`,
and maps `error` code 22 to `false`, `cas_ok` to `true`, and every other
response payload to a fault. -/
theorem c9_theorem {K V W : Type} (key : K) (from_ to_ : V) (rresp : KVPayload Unit W)
    (cresp : KVPayload Unit Unit) :
    (SeqKV.read_response rresp = Except.ok none ↔ ∃ t, rresp = KVPayload.error 20 t) ∧
    (∀ v, SeqKV.read_response rresp = Except.ok (some v) ↔ rresp = KVPayload.read_ok v) ∧
    ((∃ e, SeqKV.read_response rresp = Except.error e) ↔
      (¬ (∃ t, rresp = KVPayload.error 20 t) ∧ ¬ (∃ v, rresp = KVPayload.read_ok v))) ∧
    SeqKV.cas_request key from_ to_ = KVPayload.cas key from_ to_ (some true) ∧
    (SeqKV.cas_response cresp = Except.ok false ↔ ∃ t, cresp = KVPayload.error 22 t) ∧
    (SeqKV.cas_response cresp = Except.ok true ↔ cresp = KVPayload.cas_ok) ∧
    ((∃ e, SeqKV.cas_response cresp = Except.error e) ↔
      (¬ (∃ t, cresp = KVPayload.error 22 t) ∧ cresp ≠ KVPayload.cas_ok)) := by
  refine ⟨?_, ?_, ?_, rfl, ?_, ?_, ?_⟩
  · cases rresp with
    | error code text => by_cases h : code = 20 <;> simp [SeqKV.read_response, h]
    | read_ok v => simp [SeqKV.read_response]
    | read a => simp [SeqKV.read_response]
    | write a b => simp [SeqKV.read_response]
    | write_ok => simp [SeqKV.read_response]
    | cas a b c d => simp [SeqKV.read_response]
    | cas_ok => simp [SeqKV.read_response]
  · intro v
    cases rresp with
    | error code text => by_cases h : code = 20 <;> simp [SeqKV.read_response, h]
    | read_ok v0 => simp [SeqKV.read_response]
    | read a => simp [SeqKV.read_response]
    | write a b => simp [SeqKV.read_response]
    | write_ok => simp [SeqKV.read_response]
    | cas a b c d => simp [SeqKV.read_response]
    | cas_ok => simp [SeqKV.read_response]
  · cases rresp with
    | error code text => by_cases h : code = 20 <;> simp [SeqKV.read_response, h]
    | read_ok v0 => simp [SeqKV.read_response]
    | read a => simp [SeqKV.read_response]
    | write a b => simp [SeqKV.read_response]
    | write_ok => simp [SeqKV.read_response]
    | cas a b c d => simp [SeqKV.read_response]
    | cas_ok => simp [SeqKV.read_response]
  · cases cresp with
    | error code text => by_cases h : code = 22 <;> simp [SeqKV.cas_response, h]
    | read_ok v0 => simp [SeqKV.cas_response]
    | read a => simp [SeqKV.cas_response]
    | write a b => simp [SeqKV.cas_response]
    | write_ok => simp [SeqKV.cas_response]
    | cas a b c d => simp [SeqKV.cas_response]
    | cas_ok => simp [SeqKV.cas_response]
  · cases cresp with
    | error code text => by_cases h : code = 22 <;> simp [SeqKV.cas_response, h]
    | read_ok v0 => simp [SeqKV.cas_response]
    | read a => simp [SeqKV.cas_response]
    | write a b => simp [SeqKV.cas_response]
    | write_ok => simp [SeqKV.cas_response]
    | cas a b c d => simp [SeqKV.cas_response]
    | cas_ok => simp [SeqKV.cas_response]
  · cases cresp with
    | error code text => by_cases h : code = 22 <;> simp [SeqKV.cas_response, h]
    | read_ok v0 => simp [SeqKV.cas_response]
    | read a => simp [SeqKV.cas_response]
    | write a b => simp [SeqKV.cas_response]
    | write_ok => simp [SeqKV.cas_response]
    | cas a b c d => simp [SeqKV.cas_response]
    | cas_ok => simp [SeqKV.cas_response]

/-- C3 (corrected): the original claim — an unknown payload variant is
logged, not replied to, and the loop continues — fails on the code: in
`event_loop` the line `message.into_payload::<TPayload>()?` propagates the
decode error, so the app task exits with that error instead of continuing.
Concretely, an envelope with the undeclared tag "gossip" makes the loop
body return the errored outcome (no reply, loop terminated). -/
theorem c3_counterexample :
    app_task_step BroadcastPayload.fromRaw
      (fun m st wr => Except.ok (Broadcast.handle 0 m st wr))
      (⟨[], ["n2"], false, [], []⟩ : Broadcast)
      (MessageWriter.init "n1")
      ⟨"c1", "n1", ⟨some 1, none, ⟨"gossip", []⟩⟩⟩ =
    StepOutcome.errored "Couldn't convert payload type!" := by decide

/-- C3 (amended, proved): for every inbound envelope whose payload fails to
decode as the app's payload type (in particular an undeclared variant), the
app task's loop body returns the errored outcome carrying the
"Couldn't convert payload type!" error — terminating the loop — and the
handler is never invoked, so no reply is emitted; the envelope is not
ignored-and-skipped as claimed. -/
theorem c3_theorem {σ α : Type} (dec : RawPayload → Option α)
    (handle : Message α → σ → MessageWriter α → Except String (σ × MessageWriter α))
    (app : σ) (w : MessageWriter α) (m : Message RawPayload)
    (hunknown : dec m.body.payload = none) :
    app_task_step dec handle app w m =
      StepOutcome.errored "Couldn't convert payload type!" := by
  simp [app_task_step, Message.into_payload, hunknown]

/-- Witness for C3 (amended): a concrete envelope with the undeclared tag
"gossip" against the broadcast app. -/
theorem c3_witness :
    BroadcastPayload.fromRaw
      (Message.body ⟨"c1", "n1", ⟨some 1, none, ⟨"gossip", []⟩⟩⟩).payload = none ∧
    app_task_step BroadcastPayload.fromRaw
        (fun m st wr => Except.ok (Broadcast.handle 5 m st wr))
        (⟨[], ["n2", "n3"], true, [], []⟩ : Broadcast) (MessageWriter.init "n2")
        ⟨"c1", "n1", ⟨some 1, none, ⟨"gossip", []⟩⟩⟩ =
      StepOutcome.errored "Couldn't convert payload type!" :=
  ⟨by decide,
   c3_theorem BroadcastPayload.fromRaw
     (fun m st wr => Except.ok (Broadcast.handle 5 m st wr))
     (⟨[], ["n2", "n3"], true, [], []⟩ : Broadcast) (MessageWriter.init "n2")
     ⟨"c1", "n1", ⟨some 1, none, ⟨"gossip", []⟩⟩⟩ (by decide)⟩

theorem applyEmit_sent_ids {α : Type} (w : MessageWriter α) (op : EmitOp α) :
    emittedMsgIds (applyEmit w op) = emittedMsgIds w ++ [w.msg_id % u32Mod] := by
  cases op <;>
    simp [applyEmit, MessageWriter.reply_to, MessageWriter.send_to,
      MessageWriter.send_and_receive_send, emittedMsgIds, List.filterMap_append]

theorem applyEmit_msg_id {α : Type} (w : MessageWriter α) (op : EmitOp α) :
    (applyEmit w op).msg_id = (w.msg_id + 1) % u32Mod := by
  cases op <;> rfl

theorem applyEmit_sent_length {α : Type} (w : MessageWriter α) (op : EmitOp α) :
    (applyEmit w op).sent.length = w.sent.length + 1 := by
  cases op <;>
    simp [applyEmit, MessageWriter.reply_to, MessageWriter.send_to,
      MessageWriter.send_and_receive_send]

theorem runOps_sent_ids {α : Type} : ∀ (ops : List (EmitOp α)) (w : MessageWriter α),
    emittedMsgIds (runOps w ops) =
      emittedMsgIds w ++ (List.range ops.length).map (fun k => (w.msg_id + k) % u32Mod) := by
  intro ops
  induction ops with
  | nil => intro w; simp [runOps, emittedMsgIds]
  | cons op rest ih =>
      intro w
      have h1 : runOps w (op :: rest) = runOps (applyEmit w op) rest := rfl
      rw [h1, ih, applyEmit_sent_ids, applyEmit_msg_id, List.append_assoc]
      congr 1
      have hfun : ∀ (k : Nat),
          ((w.msg_id + 1) % u32Mod + k) % u32Mod = (w.msg_id + (k + 1)) % u32Mod := by
        intro k
        rw [Nat.mod_add_mod]
        congr 1
        omega
      rw [List.length_cons, List.range_succ_eq_map, List.map_cons, List.map_map]
      simp [hfun, Function.comp]

theorem runOps_msg_id {α : Type} : ∀ (ops : List (EmitOp α)) (w : MessageWriter α),
    w.msg_id < u32Mod → (runOps w ops).msg_id = (w.msg_id + ops.length) % u32Mod := by
  intro ops
  induction ops with
  | nil => intro w h; simpa [runOps] using (Nat.mod_eq_of_lt h).symm
  | cons op rest ih =>
      intro w h
      have h1 : runOps w (op :: rest) = runOps (applyEmit w op) rest := rfl
      have hM : 0 < u32Mod := by norm_num [u32Mod]
      rw [h1, ih (applyEmit w op) (by rw [applyEmit_msg_id]; exact Nat.mod_lt _ hM),
        applyEmit_msg_id, Nat.mod_add_mod, List.length_cons]
      congr 1
      omega

theorem runOps_sent_length {α : Type} : ∀ (ops : List (EmitOp α)) (w : MessageWriter α),
    (runOps w ops).sent.length = w.sent.length + ops.length := by
  intro ops
  induction ops with
  | nil => intro w; simp [runOps]
  | cons op rest ih =>
      intro w
      have h1 : runOps w (op :: rest) = runOps (applyEmit w op) rest := rfl
      rw [h1, ih, applyEmit_sent_length, List.length_cons]
      omega

/-- Helper: a duplicate-free mapped list has an injective mapping on its
elements. -/
theorem nodup_map_inj {α β : Type} {f : α → β} : ∀ {l : List α}, (l.map f).Nodup →
    ∀ x ∈ l, ∀ y ∈ l, f x = f y → x = y := by
  intro l
  induction l with
  | nil => intro _ x hx; simp at hx
  | cons a rest ih =>
      intro hnd x hx y hy hf
      simp only [List.map_cons, List.nodup_cons] at hnd
      rcases List.mem_cons.mp hx with rfl | hx'
      · rcases List.mem_cons.mp hy with rfl | hy'
        · rfl
        · exact absurd (hf ▸ List.mem_map_of_mem f hy') hnd.1
      · rcases List.mem_cons.mp hy with rfl | hy'
        · exact absurd (hf ▸ List.mem_map_of_mem f hx') hnd.1
        · exact ih hnd.2 x hx' y hy' hf

/-- C7 (corrected): the original claim — outbound `msg_id` values are
strictly increasing in every run — fails on the code: the counter is an
`AtomicU32` and `fetch_add` wraps at 2^32, so a run of 2^32 + 1 emissions
carries `msg_id` 0 both on its first and on its last envelope. -/
theorem c7_counterexample :
    ¬ (emittedMsgIds (runOps (MessageWriter.init "n1")
        (List.replicate (u32Mod + 1)
          (EmitOp.fire "n2" BroadcastPayload.broadcast_ok)))).Pairwise (· < ·) := by
  intro hpair
  have hids : emittedMsgIds (runOps (MessageWriter.init "n1")
      (List.replicate (u32Mod + 1) (EmitOp.fire "n2" BroadcastPayload.broadcast_ok))) =
      (List.range (u32Mod + 1)).map (fun k => (0 + k) % u32Mod) := by
    rw [runOps_sent_ids, List.length_replicate]
    have h1 : emittedMsgIds (MessageWriter.init "n1" : MessageWriter BroadcastPayload) = [] :=
      rfl
    have h2 : (MessageWriter.init "n1" : MessageWriter BroadcastPayload).msg_id = 0 := rfl
    rw [h1, h2, List.nil_append]
  rw [hids] at hpair
  have hnd : ((List.range (u32Mod + 1)).map (fun k => (0 + k) % u32Mod)).Nodup :=
    hpair.imp (fun h => Nat.ne_of_lt h)
  have h00 : (0 : Nat) ∈ List.range (u32Mod + 1) := List.mem_range.mpr (by omega)
  have h0M : u32Mod ∈ List.range (u32Mod + 1) := List.mem_range.mpr (by omega)
  have heq : (fun k => (0 + k) % u32Mod) 0 = (fun k => (0 + k) % u32Mod) u32Mod := by
    simp
  have hcontra := nodup_map_inj hnd 0 h00 u32Mod h0M heq
  norm_num [u32Mod] at hcontra

/-- C7 (amended, proved): from the initial writer, the `msg_id` values on
the emitted envelopes of a run of `reply_to` / `send_to` /
`send_and_receive` emissions are exactly 0, 1, 2, … (mod 2^32): strictly
increasing from 0 whenever the run has at most 2^32 emissions, the counter
having been advanced exactly once per emission. -/
theorem c7_theorem {α : Type} (nid : String) (ops : List (EmitOp α))
    (hlen : ops.length ≤ u32Mod) :
    (emittedMsgIds (runOps (MessageWriter.init nid) ops)).Pairwise (· < ·) ∧
    emittedMsgIds (runOps (MessageWriter.init nid) ops) = List.range ops.length ∧
    (runOps (MessageWriter.init nid) ops).msg_id = ops.length % u32Mod ∧
    (runOps (MessageWriter.init nid) ops).sent.length = ops.length := by
  have hids : emittedMsgIds (runOps (MessageWriter.init nid) ops) =
      (List.range ops.length).map (fun k => (0 + k) % u32Mod) := by
    rw [runOps_sent_ids]
    simp [MessageWriter.init, emittedMsgIds]
  have hids' : emittedMsgIds (runOps (MessageWriter.init nid) ops) = List.range ops.length := by
    rw [hids]
    have : ∀ k ∈ List.range ops.length, (0 + k) % u32Mod = k := by
      intro k hk
      rw [Nat.zero_add, Nat.mod_eq_of_lt (by have := List.mem_range.mp hk; omega)]
    rw [List.map_congr_left this]
    simp
  refine ⟨?_, hids', ?_, ?_⟩
  · rw [hids']
    exact List.pairwise_lt_range ops.length
  · rw [runOps_msg_id ops _ (by norm_num [MessageWriter.init, u32Mod])]
    simp [MessageWriter.init]
  · rw [runOps_sent_length]
    simp [MessageWriter.init]

/-- Witness for C7 (amended) on a concrete two-emission run. -/
theorem c7_witness :
    List.length [EmitOp.fire "n2" BroadcastPayload.read,
      EmitOp.rpc "seq-kv" BroadcastPayload.read] ≤ u32Mod ∧
    ((emittedMsgIds (runOps (MessageWriter.init "n1")
        [EmitOp.fire "n2" BroadcastPayload.read,
         EmitOp.rpc "seq-kv" BroadcastPayload.read])).Pairwise (· < ·) ∧
     emittedMsgIds (runOps (MessageWriter.init "n1")
        [EmitOp.fire "n2" BroadcastPayload.read,
         EmitOp.rpc "seq-kv" BroadcastPayload.read]) =
       List.range (List.length [EmitOp.fire "n2" BroadcastPayload.read,
         EmitOp.rpc "seq-kv" BroadcastPayload.read]) ∧
     (runOps (MessageWriter.init "n1")
        [EmitOp.fire "n2" BroadcastPayload.read,
         EmitOp.rpc "seq-kv" BroadcastPayload.read]).msg_id =
       List.length [EmitOp.fire "n2" BroadcastPayload.read,
         EmitOp.rpc "seq-kv" BroadcastPayload.read] % u32Mod ∧
     (runOps (MessageWriter.init "n1")
        [EmitOp.fire "n2" BroadcastPayload.read,
         EmitOp.rpc "seq-kv" BroadcastPayload.read]).sent.length =
       List.length [EmitOp.fire "n2" BroadcastPayload.read,
         EmitOp.rpc "seq-kv" BroadcastPayload.read]) :=
  ⟨by decide,
   c7_theorem "n1" [EmitOp.fire "n2" BroadcastPayload.read,
     EmitOp.rpc "seq-kv" BroadcastPayload.read] (by decide)⟩

theorem foldPrepare_spec (now m : Nat) : ∀ (nbs : List String) (s : Broadcast),
    ((nbs.foldl (fun st n2 => Broadcast.prepare_send_to_neighbor now st n2 m) s).messages_seen =
        s.messages_seen ∧
      (nbs.foldl (fun st n2 => Broadcast.prepare_send_to_neighbor now st n2 m) s).neighbors =
        s.neighbors ∧
      (nbs.foldl (fun st n2 => Broadcast.prepare_send_to_neighbor now st n2 m)
          s).always_broadcast = s.always_broadcast ∧
      (nbs.foldl (fun st n2 => Broadcast.prepare_send_to_neighbor now st n2 m)
          s).neighbor_messages_not_acked = s.neighbor_messages_not_acked) ∧
    (∀ nb, nb ∉ nbs →
      alookup nb (nbs.foldl (fun st n2 => Broadcast.prepare_send_to_neighbor now st n2 m)
          s).batched_sends_to_neighbors =
        alookup nb s.batched_sends_to_neighbors) ∧
    (nbs.Nodup → ∀ nb ∈ nbs,
      alookup nb (nbs.foldl (fun st n2 => Broadcast.prepare_send_to_neighbor now st n2 m)
          s).batched_sends_to_neighbors =
        some (match alookup nb s.batched_sends_to_neighbors with
              | none => (now, [m])
              | some (t, ms) => (t, ms ++ [m]))) := by
  intro nbs
  induction nbs with
  | nil =>
      intro s
      exact ⟨⟨rfl, rfl, rfl, rfl⟩, fun nb _ => rfl, fun _ nb hnb => absurd hnb (by simp)⟩
  | cons h t ih =>
      intro s
      have hstep : (h :: t).foldl (fun st n2 => Broadcast.prepare_send_to_neighbor now st n2 m) s
          = t.foldl (fun st n2 => Broadcast.prepare_send_to_neighbor now st n2 m)
              (Broadcast.prepare_send_to_neighbor now s h m) := rfl
      obtain ⟨⟨ih1, ih2, ih3, ih4⟩, ihout, ihin⟩ := ih (Broadcast.prepare_send_to_neighbor now s h m)
      refine ⟨⟨by rw [hstep, ih1]; rfl, by rw [hstep, ih2]; rfl, by rw [hstep, ih3]; rfl,
        by rw [hstep, ih4]; rfl⟩, ?_, ?_⟩
      · intro nb hnb
        have hne : nb ≠ h := fun hc => hnb (hc ▸ List.mem_cons_self h t)
        have hnt : nb ∉ t := fun hc => hnb (List.mem_cons_of_mem h hc)
        rw [hstep, ihout nb hnt]
        show alookup nb (aupdate h _ s.batched_sends_to_neighbors) = _
        exact alookup_aupdate_ne _ _ hne
      · intro hnd nb hnb
        have hnd' := List.nodup_cons.mp hnd
        rcases List.mem_cons.mp hnb with rfl | hnbt
        · rw [hstep, ihout nb hnd'.1]
          show alookup nb (aupdate nb _ s.batched_sends_to_neighbors) = _
          rw [alookup_aupdate_self]
        · rw [hstep, ihin hnd'.2 nb hnbt]
          have hne : nb ≠ h := fun hc => hnd'.1 (hc ▸ hnbt)
          have : alookup nb (Broadcast.prepare_send_to_neighbor now s h
              m).batched_sends_to_neighbors = alookup nb s.batched_sends_to_neighbors := by
            show alookup nb (aupdate h _ s.batched_sends_to_neighbors) = _
            exact alookup_aupdate_ne _ _ hne
          rw [this]

theorem handle_message_spec (now : Nat) (s : Broadcast) (e : Message BroadcastPayload)
    (m : Nat) (hdup : s.neighbors.Nodup) :
    (Broadcast.handle_message now s e m).messages_seen =
      (if m ∈ s.messages_seen then s.messages_seen else s.messages_seen ++ [m]) ∧
    (Broadcast.handle_message now s e m).neighbors = s.neighbors ∧
    (Broadcast.handle_message now s e m).always_broadcast = s.always_broadcast ∧
    (Broadcast.handle_message now s e m).neighbor_messages_not_acked =
      s.neighbor_messages_not_acked ∧
    ((m ∉ s.messages_seen ∧ (isClient e.src = true ∨ s.always_broadcast = true)) →
      (∀ nb ∈ s.neighbors,
        alookup nb (Broadcast.handle_message now s e m).batched_sends_to_neighbors =
          some (match alookup nb s.batched_sends_to_neighbors with
                | none => (now, [m])
                | some (t, ms) => (t, ms ++ [m]))) ∧
      (∀ nb, nb ∉ s.neighbors →
        alookup nb (Broadcast.handle_message now s e m).batched_sends_to_neighbors =
          alookup nb s.batched_sends_to_neighbors)) ∧
    ((m ∈ s.messages_seen ∨ (isClient e.src = false ∧ s.always_broadcast = false)) →
      (Broadcast.handle_message now s e m).batched_sends_to_neighbors =
        s.batched_sends_to_neighbors) := by
  by_cases hm : m ∈ s.messages_seen
  · have hres : Broadcast.handle_message now s e m = s := by
      simp [Broadcast.handle_message, hm]
    rw [hres]
    refine ⟨by rw [if_pos hm], rfl, rfl, rfl, ?_, fun _ => rfl⟩
    intro hpos
    exact absurd hm hpos.1
  · by_cases hc : (isClient e.src || s.always_broadcast) = true
    · have hres : Broadcast.handle_message now s e m =
          s.neighbors.foldl (fun st n2 => Broadcast.prepare_send_to_neighbor now st n2 m)
            { s with messages_seen := s.messages_seen ++ [m] } := by
        simp [Broadcast.handle_message, hm, hc]
      obtain ⟨⟨f1, f2, f3, f4⟩, fout, fin⟩ := foldPrepare_spec now m s.neighbors
        { s with messages_seen := s.messages_seen ++ [m] }
      rw [hres]
      refine ⟨by rw [f1, if_neg hm], by rw [f2], by rw [f3], by rw [f4], ?_, ?_⟩
      · intro _
        exact ⟨fin hdup, fout⟩
      · intro hneg
        rcases hneg with hneg | hneg
        · exact absurd hneg hm
        · rw [Bool.or_eq_true] at hc
          rcases hc with hc | hc
          · rw [hneg.1] at hc
            exact absurd hc (by simp)
          · rw [hneg.2] at hc
            exact absurd hc (by simp)
    · have hres : Broadcast.handle_message now s e m =
          { s with messages_seen := s.messages_seen ++ [m] } := by
        simp [Broadcast.handle_message, hm, hc]
      rw [hres]
      refine ⟨by rw [if_neg hm], rfl, rfl, rfl, ?_, fun _ => rfl⟩
      intro hpos
      rcases hpos.2 with hcl | hab
      · exact absurd (by simp [hcl] : (isClient e.src || s.always_broadcast) = true) hc
      · exact absurd (by simp [hab] : (isClient e.src || s.always_broadcast) = true) hc

/-- C2: handling `broadcast{m}` inserts `m` into `messages_seen`, enqueues
`m` to every neighbor (via `prepare_send_to_neighbor`) exactly when `m` was
newly inserted and the source is a client (identifier starting with c) or
`always_broadcast` is set, and replies `broadcast_ok`; handling
`broadcast_batched{ms}` applies the same insertion/enqueue rule to each
value in order and replies once with `broadcast_batched_ok`. -/
theorem c2_theorem (now : Nat) (s : Broadcast) (w : MessageWriter BroadcastPayload)
    (e : Message BroadcastPayload) (hdup : s.neighbors.Nodup) : C2Post now s w e := by
  constructor
  · intro m hp
    have hh : Broadcast.handle now e s w =
        (Broadcast.handle_message now s e m,
         (w.reply_to e BroadcastPayload.broadcast_ok).1) := by
      simp [Broadcast.handle, hp]
    obtain ⟨hseen, _, _, _, hpos, hneg⟩ := handle_message_spec now s e m hdup
    rw [hh]
    exact ⟨hseen, hpos, hneg, rfl⟩
  · intro ms hp
    have hh : Broadcast.handle now e s w =
        (ms.foldl (fun st mm => Broadcast.handle_message now st e mm) s,
         (w.reply_to e BroadcastPayload.broadcast_batched_ok).1) := by
      simp [Broadcast.handle, hp]
    rw [hh]
    exact ⟨rfl, rfl⟩

/-- Witness for C2 on a concrete state and client envelope. -/
theorem c2_witness :
    (["n2", "n3"] : List String).Nodup ∧
    C2Post 50 ⟨[], ["n2", "n3"], false, [], []⟩ (MessageWriter.init "n1")
      ⟨"c1", "n1", ⟨some 7, none, BroadcastPayload.broadcast 42⟩⟩ :=
  ⟨by decide,
   c2_theorem 50 ⟨[], ["n2", "n3"], false, [], []⟩ (MessageWriter.init "n1")
     ⟨"c1", "n1", ⟨some 7, none, BroadcastPayload.broadcast 42⟩⟩ (by decide)⟩

theorem handle_message_seen (now : Nat) (s : Broadcast) (e : Message BroadcastPayload)
    (m : Nat) :
    (Broadcast.handle_message now s e m).messages_seen =
      (if m ∈ s.messages_seen then s.messages_seen else s.messages_seen ++ [m]) := by
  by_cases hm : m ∈ s.messages_seen
  · simp [Broadcast.handle_message, hm]
  · by_cases hc : (isClient e.src || s.always_broadcast) = true
    · have hres : Broadcast.handle_message now s e m =
          s.neighbors.foldl (fun st n2 => Broadcast.prepare_send_to_neighbor now st n2 m)
            { s with messages_seen := s.messages_seen ++ [m] } := by
        simp [Broadcast.handle_message, hm, hc]
      rw [hres, (foldPrepare_spec now m s.neighbors _).1.1, if_neg hm]
    · simp [Broadcast.handle_message, hm, hc]

theorem handle_message_of_seen (now : Nat) (s : Broadcast) (e : Message BroadcastPayload)
    (m : Nat) (hm : m ∈ s.messages_seen) : Broadcast.handle_message now s e m = s := by
  simp [Broadcast.handle_message, hm]

theorem handle_message_seen_mono (now : Nat) (s : Broadcast) (e : Message BroadcastPayload)
    (m x : Nat) (hx : x ∈ s.messages_seen) :
    x ∈ (Broadcast.handle_message now s e m).messages_seen := by
  rw [handle_message_seen]
  by_cases hm : m ∈ s.messages_seen
  · simpa [hm] using hx
  · simp only [if_neg hm]
    exact List.mem_append_left _ hx

theorem handle_message_seen_self (now : Nat) (s : Broadcast) (e : Message BroadcastPayload)
    (m : Nat) : m ∈ (Broadcast.handle_message now s e m).messages_seen := by
  rw [handle_message_seen]
  by_cases hm : m ∈ s.messages_seen
  · simp [hm]
  · simp [hm]

theorem foldHandle_seen (now : Nat) (e : Message BroadcastPayload) :
    ∀ (ms : List Nat) (s : Broadcast),
    (∀ x ∈ s.messages_seen,
      x ∈ (ms.foldl (fun st mm => Broadcast.handle_message now st e mm) s).messages_seen) ∧
    (∀ x ∈ ms,
      x ∈ (ms.foldl (fun st mm => Broadcast.handle_message now st e mm) s).messages_seen) := by
  intro ms
  induction ms with
  | nil => intro s; exact ⟨fun x h => h, by simp⟩
  | cons m t ih =>
      intro s
      have hstep : (m :: t).foldl (fun st mm => Broadcast.handle_message now st e mm) s =
          t.foldl (fun st mm => Broadcast.handle_message now st e mm)
            (Broadcast.handle_message now s e m) := rfl
      obtain ⟨ih1, ih2⟩ := ih (Broadcast.handle_message now s e m)
      constructor
      · intro x hx
        rw [hstep]
        exact ih1 x (handle_message_seen_mono now s e m x hx)
      · intro x hx
        rw [hstep]
        rcases List.mem_cons.mp hx with rfl | hxt
        · exact ih1 x (handle_message_seen_self now s e x)
        · exact ih2 x hxt

theorem foldHandle_of_seen (now : Nat) (e : Message BroadcastPayload) :
    ∀ (ms : List Nat) (s : Broadcast), (∀ x ∈ ms, x ∈ s.messages_seen) →
      ms.foldl (fun st mm => Broadcast.handle_message now st e mm) s = s := by
  intro ms
  induction ms with
  | nil => intro s _; rfl
  | cons m t ih =>
      intro s hx
      have hstep : (m :: t).foldl (fun st mm => Broadcast.handle_message now st e mm) s =
          t.foldl (fun st mm => Broadcast.handle_message now st e mm)
            (Broadcast.handle_message now s e m) := rfl
      rw [hstep, handle_message_of_seen now s e m (hx m (List.mem_cons_self m t))]
      exact ih s (fun x hxt => hx x (List.mem_cons_of_mem m hxt))

/-- C6: duplicate delivery of a `broadcast_batched` envelope is idempotent —
after handling it once, handling the same envelope again (at any later
time) leaves the application state unchanged, so `messages_seen` is the
same and no value is enqueued to any neighbor's pending batch. -/
theorem c6_theorem (now now2 : Nat) (s : Broadcast) (w : MessageWriter BroadcastPayload)
    (e : Message BroadcastPayload) (ms : List Nat)
    (hp : e.body.payload = BroadcastPayload.broadcast_batched ms) :
    (Broadcast.handle now2 e (Broadcast.handle now e s w).1
        (Broadcast.handle now e s w).2).1 = (Broadcast.handle now e s w).1 ∧
    (Broadcast.handle now2 e (Broadcast.handle now e s w).1
        (Broadcast.handle now e s w).2).1.messages_seen =
      (Broadcast.handle now e s w).1.messages_seen ∧
    (Broadcast.handle now2 e (Broadcast.handle now e s w).1
        (Broadcast.handle now e s w).2).1.batched_sends_to_neighbors =
      (Broadcast.handle now e s w).1.batched_sends_to_neighbors := by
  have hh1 : (Broadcast.handle now e s w).1 =
      ms.foldl (fun st mm => Broadcast.handle_message now st e mm) s := by
    simp [Broadcast.handle, hp]
  have hsub : ∀ x ∈ ms, x ∈ (Broadcast.handle now e s w).1.messages_seen := by
    rw [hh1]
    exact (foldHandle_seen now e ms s).2
  have hsecond : (Broadcast.handle now2 e (Broadcast.handle now e s w).1
      (Broadcast.handle now e s w).2).1 = (Broadcast.handle now e s w).1 := by
    have hred : (Broadcast.handle now2 e (Broadcast.handle now e s w).1
        (Broadcast.handle now e s w).2).1 =
        ms.foldl (fun st mm => Broadcast.handle_message now2 st e mm)
          (Broadcast.handle now e s w).1 := by
      simp [Broadcast.handle, hp]
    rw [hred, foldHandle_of_seen now2 e ms _ hsub]
  exact ⟨hsecond, by rw [hsecond], by rw [hsecond]⟩

/-- Witness for C6 on a concrete batched envelope with duplicate values. -/
theorem c6_witness :
    (Message.body ⟨"n5", "n2", ⟨some 9, none,
        BroadcastPayload.broadcast_batched [7, 7, 3]⟩⟩).payload =
      BroadcastPayload.broadcast_batched [7, 7, 3] ∧
    (Broadcast.handle 200 ⟨"n5", "n2", ⟨some 9, none,
          BroadcastPayload.broadcast_batched [7, 7, 3]⟩⟩
        (Broadcast.handle 100 ⟨"n5", "n2", ⟨some 9, none,
            BroadcastPayload.broadcast_batched [7, 7, 3]⟩⟩
          ⟨[], ["n3"], true, [], []⟩ (MessageWriter.init "n2")).1
        (Broadcast.handle 100 ⟨"n5", "n2", ⟨some 9, none,
            BroadcastPayload.broadcast_batched [7, 7, 3]⟩⟩
          ⟨[], ["n3"], true, [], []⟩ (MessageWriter.init "n2")).2).1 =
      (Broadcast.handle 100 ⟨"n5", "n2", ⟨some 9, none,
          BroadcastPayload.broadcast_batched [7, 7, 3]⟩⟩
        ⟨[], ["n3"], true, [], []⟩ (MessageWriter.init "n2")).1 :=
  ⟨rfl,
   (c6_theorem 100 200 ⟨[], ["n3"], true, [], []⟩ (MessageWriter.init "n2")
     ⟨"n5", "n2", ⟨some 9, none, BroadcastPayload.broadcast_batched [7, 7, 3]⟩⟩
     [7, 7, 3] rfl).1⟩

theorem bsend_sent (now : Nat) (sw : Broadcast × MessageWriter BroadcastPayload)
    (nb : String) (b : List Nat) :
    (Broadcast.batched_send_to_neighbor now sw nb b).2.sent =
      sw.2.sent ++ [mkBatchedSend sw.2.node_id nb b (sw.2.msg_id % u32Mod)] := rfl

theorem bsend_node_id (now : Nat) (sw : Broadcast × MessageWriter BroadcastPayload)
    (nb : String) (b : List Nat) :
    (Broadcast.batched_send_to_neighbor now sw nb b).2.node_id = sw.2.node_id := rfl

theorem bsend_batched (now : Nat) (sw : Broadcast × MessageWriter BroadcastPayload)
    (nb : String) (b : List Nat) :
    (Broadcast.batched_send_to_neighbor now sw nb b).1.batched_sends_to_neighbors =
      sw.1.batched_sends_to_neighbors := rfl

theorem bsend_unacked (now : Nat) (sw : Broadcast × MessageWriter BroadcastPayload)
    (nb : String) (b : List Nat) :
    (Broadcast.batched_send_to_neighbor now sw nb b).1.neighbor_messages_not_acked =
      aupdate nb (fun old =>
        aupdate b (fun _ => ⟨sw.2.msg_id % u32Mod, now⟩) (old.getD []))
        sw.1.neighbor_messages_not_acked := rfl

theorem bsend_lookup_self (now : Nat) (sw : Broadcast × MessageWriter BroadcastPayload)
    (nb : String) (b : List Nat) :
    Broadcast.lookupUnacked (Broadcast.batched_send_to_neighbor now sw nb b).1 nb b =
      some ⟨sw.2.msg_id % u32Mod, now⟩ := by
  unfold Broadcast.lookupUnacked
  rw [bsend_unacked, alookup_aupdate_self]
  simp [alookup_aupdate_self]

theorem bsend_lookup_other (now : Nat) (sw : Broadcast × MessageWriter BroadcastPayload)
    (nb b nb' b') (hne : nb' ≠ nb ∨ b' ≠ b) :
    Broadcast.lookupUnacked (Broadcast.batched_send_to_neighbor now sw nb b).1 nb' b' =
      Broadcast.lookupUnacked sw.1 nb' b' := by
  unfold Broadcast.lookupUnacked
  rw [bsend_unacked]
  by_cases hnb : nb' = nb
  · subst hnb
    have hb : b' ≠ b := by
      rcases hne with h | h
      · exact absurd rfl h
      · exact h
    rw [alookup_aupdate_self]
    cases hold : alookup nb' sw.1.neighbor_messages_not_acked with
    | none => simp [alookup_aupdate_ne _ _ hb, alookup, Ne.symm hb]
    | some inner => simp [alookup_aupdate_ne _ _ hb]
  · rw [alookup_aupdate_ne _ _ hnb]

theorem bsend_isSome (now : Nat) (sw : Broadcast × MessageWriter BroadcastPayload)
    (nb b nb' b') (h : (Broadcast.lookupUnacked sw.1 nb' b').isSome = true) :
    (Broadcast.lookupUnacked
      (Broadcast.batched_send_to_neighbor now sw nb b).1 nb' b').isSome = true := by
  by_cases hnb : nb' = nb
  · by_cases hb : b' = b
    · subst hnb; subst hb
      rw [bsend_lookup_self]
      rfl
    · rw [bsend_lookup_other now sw nb b nb' b' (Or.inr hb)]
      exact h
  · rw [bsend_lookup_other now sw nb b nb' b' (Or.inl hnb)]
    exact h

theorem sentP_bsend (now : Nat) (src nb : String) (b : List Nat)
    (sw : Broadcast × MessageWriter BroadcastPayload) (nb2 : String) (b2 : List Nat)
    (hsrc : sw.2.node_id = src) (h : SentP now src nb b sw) :
    SentP now src nb b (Broadcast.batched_send_to_neighbor now sw nb2 b2) := by
  obtain ⟨mid, hl, hm⟩ := h
  by_cases hnb : nb = nb2
  · by_cases hb : b = b2
    · subst hnb; subst hb
      refine ⟨sw.2.msg_id % u32Mod, bsend_lookup_self now sw nb b, ?_⟩
      rw [bsend_sent, hsrc]
      exact List.mem_append_right _ (by simp)
    · refine ⟨mid, ?_, ?_⟩
      · rw [bsend_lookup_other now sw nb2 b2 nb b (Or.inr hb)]
        exact hl
      · rw [bsend_sent]
        exact List.mem_append_left _ hm
  · refine ⟨mid, ?_, ?_⟩
    · rw [bsend_lookup_other now sw nb2 b2 nb b (Or.inl hnb)]
      exact hl
    · rw [bsend_sent]
      exact List.mem_append_left _ hm

theorem sentP_bsend_self (now : Nat) (src nb : String) (b : List Nat)
    (sw : Broadcast × MessageWriter BroadcastPayload) (hsrc : sw.2.node_id = src) :
    SentP now src nb b (Broadcast.batched_send_to_neighbor now sw nb b) := by
  refine ⟨sw.2.msg_id % u32Mod, bsend_lookup_self now sw nb b, ?_⟩
  rw [bsend_sent, hsrc]
  exact List.mem_append_right _ (by simp)

theorem sendFold_node_id (now : Nat) : ∀ (l : List (String × List Nat))
    (sw : Broadcast × MessageWriter BroadcastPayload),
    (sendFold now l sw).2.node_id = sw.2.node_id := by
  intro l
  induction l with
  | nil => intro sw; rfl
  | cons p t ih =>
      intro sw
      have hstep : sendFold now (p :: t) sw =
          sendFold now t (Broadcast.batched_send_to_neighbor now sw p.1 p.2) := rfl
      rw [hstep, ih, bsend_node_id]

theorem sentP_sendFold (now : Nat) (src nb : String) (b : List Nat) :
    ∀ (l : List (String × List Nat)) (sw : Broadcast × MessageWriter BroadcastPayload),
    sw.2.node_id = src → SentP now src nb b sw →
    SentP now src nb b (sendFold now l sw) := by
  intro l
  induction l with
  | nil => intro sw _ h; exact h
  | cons p t ih =>
      intro sw hsrc h
      have hstep : sendFold now (p :: t) sw =
          sendFold now t (Broadcast.batched_send_to_neighbor now sw p.1 p.2) := rfl
      rw [hstep]
      exact ih _ (by rw [bsend_node_id]; exact hsrc) (sentP_bsend now src nb b sw p.1 p.2 hsrc h)

theorem sentP_sendFold_mem (now : Nat) (src nb : String) (b : List Nat) :
    ∀ (l : List (String × List Nat)) (sw : Broadcast × MessageWriter BroadcastPayload),
    sw.2.node_id = src → (nb, b) ∈ l → SentP now src nb b (sendFold now l sw) := by
  intro l
  induction l with
  | nil => intro sw _ hmem; simp at hmem
  | cons p t ih =>
      intro sw hsrc hmem
      have hstep : sendFold now (p :: t) sw =
          sendFold now t (Broadcast.batched_send_to_neighbor now sw p.1 p.2) := rfl
      rcases List.mem_cons.mp hmem with heq | hmem2
      · rw [hstep]
        apply sentP_sendFold now src nb b t _ (by rw [bsend_node_id]; exact hsrc)
        have hp1 : p.1 = nb := by rw [← heq]
        have hp2 : p.2 = b := by rw [← heq]
        rw [hp1, hp2]
        exact sentP_bsend_self now src nb b sw hsrc
      · rw [hstep]
        exact ih _ (by rw [bsend_node_id]; exact hsrc) hmem2

theorem sendFold_lookup_not_mem (now : Nat) :
    ∀ (l : List (String × List Nat)) (sw : Broadcast × MessageWriter BroadcastPayload)
      (nb : String) (b : List Nat), (nb, b) ∉ l →
    Broadcast.lookupUnacked (sendFold now l sw).1 nb b =
      Broadcast.lookupUnacked sw.1 nb b := by
  intro l
  induction l with
  | nil => intro sw nb b _; rfl
  | cons p t ih =>
      intro sw nb b hmem
      have hstep : sendFold now (p :: t) sw =
          sendFold now t (Broadcast.batched_send_to_neighbor now sw p.1 p.2) := rfl
      have hnt : (nb, b) ∉ t := fun hc => hmem (List.mem_cons_of_mem p hc)
      have hne : nb ≠ p.1 ∨ b ≠ p.2 := by
        by_cases hnb : nb = p.1
        · by_cases hb : b = p.2
          · exact absurd (by rw [hnb, hb] : (nb, b) = p) (fun hc => hmem (hc ▸ List.mem_cons_self p t))
          · exact Or.inr hb
        · exact Or.inl hnb
      rw [hstep, ih _ nb b hnt, bsend_lookup_other now sw p.1 p.2 nb b hne]

theorem sendFold_isSome (now : Nat) :
    ∀ (l : List (String × List Nat)) (sw : Broadcast × MessageWriter BroadcastPayload)
      (nb : String) (b : List Nat),
      (Broadcast.lookupUnacked sw.1 nb b).isSome = true →
      (Broadcast.lookupUnacked (sendFold now l sw).1 nb b).isSome = true := by
  intro l
  induction l with
  | nil => intro sw nb b h; exact h
  | cons p t ih =>
      intro sw nb b h
      have hstep : sendFold now (p :: t) sw =
          sendFold now t (Broadcast.batched_send_to_neighbor now sw p.1 p.2) := rfl
      rw [hstep]
      exact ih _ nb b (bsend_isSome now sw p.1 p.2 nb b h)

theorem sendFold_batched (now : Nat) :
    ∀ (l : List (String × List Nat)) (sw : Broadcast × MessageWriter BroadcastPayload),
    (sendFold now l sw).1.batched_sends_to_neighbors = sw.1.batched_sends_to_neighbors := by
  intro l
  induction l with
  | nil => intro sw; rfl
  | cons p t ih =>
      intro sw
      have hstep : sendFold now (p :: t) sw =
          sendFold now t (Broadcast.batched_send_to_neighbor now sw p.1 p.2) := rfl
      rw [hstep, ih, bsend_batched]

theorem sendFold_sent_mono (now : Nat) :
    ∀ (l : List (String × List Nat)) (sw : Broadcast × MessageWriter BroadcastPayload)
      (m : Message BroadcastPayload), m ∈ sw.2.sent → m ∈ (sendFold now l sw).2.sent := by
  intro l
  induction l with
  | nil => intro sw m h; exact h
  | cons p t ih =>
      intro sw m h
      have hstep : sendFold now (p :: t) sw =
          sendFold now t (Broadcast.batched_send_to_neighbor now sw p.1 p.2) := rfl
      rw [hstep]
      apply ih
      rw [bsend_sent]
      exact List.mem_append_left _ h

theorem sendFold_sent_dst (now : Nat) :
    ∀ (l : List (String × List Nat)) (sw : Broadcast × MessageWriter BroadcastPayload)
      (m : Message BroadcastPayload), m ∈ (sendFold now l sw).2.sent →
      m ∈ sw.2.sent ∨ m.dst ∈ l.map Prod.fst := by
  intro l
  induction l with
  | nil => intro sw m h; exact Or.inl h
  | cons p t ih =>
      intro sw m h
      have hstep : sendFold now (p :: t) sw =
          sendFold now t (Broadcast.batched_send_to_neighbor now sw p.1 p.2) := rfl
      rw [hstep] at h
      rcases ih _ m h with h2 | h2
      · rw [bsend_sent] at h2
        rcases List.mem_append.mp h2 with h3 | h3
        · exact Or.inl h3
        · right
          rw [List.mem_singleton.mp h3]
          exact List.mem_cons_self _ _
      · right
        exact List.mem_cons_of_mem _ h2

theorem aupdate_fst_nodup {κ ν : Type} [DecidableEq κ] (k : κ) (f : Option ν → ν)
    (l : List (κ × ν)) (h : (l.map Prod.fst).Nodup) :
    ((aupdate k f l).map Prod.fst).Nodup := by
  rw [aupdate_keys]
  by_cases hk : k ∈ l.map Prod.fst
  · rw [if_pos hk]
    exact h
  · rw [if_neg hk]
    rw [List.nodup_append]
    refine ⟨h, List.nodup_singleton _, ?_⟩
    intro a ha hb
    rw [List.mem_singleton] at hb
    exact hk (hb ▸ ha)

theorem bsend_inner_nodup (now : Nat) (sw : Broadcast × MessageWriter BroadcastPayload)
    (nb : String) (b : List Nat) (nb2 : String)
    (h : (((alookup nb2 sw.1.neighbor_messages_not_acked).getD []).map Prod.fst).Nodup) :
    (((alookup nb2
        (Broadcast.batched_send_to_neighbor now sw nb b).1.neighbor_messages_not_acked).getD
          []).map Prod.fst).Nodup := by
  rw [bsend_unacked]
  by_cases hnb : nb2 = nb
  · subst hnb
    rw [alookup_aupdate_self]
    simp only [Option.getD_some]
    exact aupdate_fst_nodup _ _ _ h
  · rw [alookup_aupdate_ne _ _ hnb]
    exact h

theorem sendFold_inner_nodup (now : Nat) :
    ∀ (l : List (String × List Nat)) (sw : Broadcast × MessageWriter BroadcastPayload)
      (nb2 : String),
      (((alookup nb2 sw.1.neighbor_messages_not_acked).getD []).map Prod.fst).Nodup →
      (((alookup nb2 (sendFold now l sw).1.neighbor_messages_not_acked).getD []).map
        Prod.fst).Nodup := by
  intro l
  induction l with
  | nil => intro sw nb2 h; exact h
  | cons p t ih =>
      intro sw nb2 h
      have hstep : sendFold now (p :: t) sw =
          sendFold now t (Broadcast.batched_send_to_neighbor now sw p.1 p.2) := rfl
      rw [hstep]
      exact ih _ nb2 (bsend_inner_nodup now sw p.1 p.2 nb2 h)

theorem alookup_filter_out {κ ν : Type} [DecidableEq κ] (keys : List κ) :
    ∀ (l : List (κ × ν)) (nb : κ), nb ∈ keys →
    alookup nb (l.filter (fun e => decide (e.1 ∉ keys))) = none := by
  intro l
  induction l with
  | nil => intro nb _; rfl
  | cons p t ih =>
      intro nb hnb
      by_cases hp : p.1 ∈ keys
      · rw [List.filter_cons, if_neg (by simp [hp])]
        exact ih nb hnb
      · rw [List.filter_cons, if_pos (by simp [hp])]
        have hne : ¬ p.1 = nb := fun hc => hp (hc ▸ hnb)
        show alookup nb (p :: List.filter _ t) = none
        rw [show alookup nb (p :: List.filter (fun e => decide (e.1 ∉ keys)) t) =
          alookup nb (List.filter (fun e => decide (e.1 ∉ keys)) t) by
            simp [alookup, hne]]
        exact ih nb hnb

theorem alookup_filter_keep {κ ν : Type} [DecidableEq κ] (keys : List κ) :
    ∀ (l : List (κ × ν)) (nb : κ), nb ∉ keys →
    alookup nb (l.filter (fun e => decide (e.1 ∉ keys))) = alookup nb l := by
  intro l
  induction l with
  | nil => intro nb _; rfl
  | cons p t ih =>
      intro nb hnb
      by_cases hk : p.1 ∈ keys
      · rw [List.filter_cons, if_neg (by simp [hk])]
        have hne : ¬ p.1 = nb := fun hc => hnb (hc ▸ hk)
        rw [ih nb hnb]
        simp [alookup, hne]
      · rw [List.filter_cons, if_pos (by simp [hk])]
        by_cases hp : p.1 = nb
        · simp [alookup, hp]
        · simp only [alookup, if_neg hp]
          exact ih nb hnb

theorem ready_pair_mem (now : Nat) (s : Broadcast) (nb : String) (t : Nat) (msgs : List Nat)
    (hl : alookup nb s.batched_sends_to_neighbors = some (t, msgs)) (hc : 100 ≤ now - t) :
    (nb, msgs) ∈ (s.batched_sends_to_neighbors.filter
      (fun e => decide (100 ≤ now - e.2.1))).map (fun e => (e.1, e.2.2)) :=
  List.mem_map.mpr ⟨(nb, (t, msgs)),
    List.mem_filter.mpr ⟨alookup_mem hl, by simp [hc]⟩, rfl⟩

theorem ready_key_mem (now : Nat) (s : Broadcast) (nb : String) (t : Nat) (msgs : List Nat)
    (hl : alookup nb s.batched_sends_to_neighbors = some (t, msgs)) (hc : 100 ≤ now - t) :
    nb ∈ (s.batched_sends_to_neighbors.filter
      (fun e => decide (100 ≤ now - e.2.1))).map Prod.fst :=
  List.mem_map.mpr ⟨(nb, (t, msgs)),
    List.mem_filter.mpr ⟨alookup_mem hl, by simp [hc]⟩, rfl⟩

theorem young_not_ready (now : Nat) (s : Broadcast)
    (hkeys : (s.batched_sends_to_neighbors.map Prod.fst).Nodup)
    (nb : String) (t : Nat) (msgs : List Nat)
    (hl : alookup nb s.batched_sends_to_neighbors = some (t, msgs)) (hy : now - t < 100) :
    nb ∉ (s.batched_sends_to_neighbors.filter
      (fun e => decide (100 ≤ now - e.2.1))).map Prod.fst := by
  intro hmem
  obtain ⟨e, he_mem, he_fst⟩ := List.mem_map.mp hmem
  have he_in : e ∈ s.batched_sends_to_neighbors := List.mem_of_mem_filter he_mem
  have he_cond : decide (100 ≤ now - e.2.1) = true := (List.mem_filter.mp he_mem).2
  have hpair : (nb, (t, msgs)) ∈ s.batched_sends_to_neighbors := alookup_mem hl
  have heq : e = (nb, (t, msgs)) :=
    nodup_map_inj hkeys e he_in (nb, (t, msgs)) hpair (by rw [he_fst])
  rw [heq] at he_cond
  simp at he_cond
  omega

theorem resendList_foldr_mem (now : Nat) :
    ∀ (L : List (String × List (List Nat × AckContext))) (nb : String)
      (inner : List (List Nat × AckContext)) (b : List Nat) (ctx : AckContext),
      (nb, inner) ∈ L → (b, ctx) ∈ inner → 500 ≤ now - ctx.time_sent →
      (nb, b) ∈ L.foldr (fun e acc =>
        ((e.2.filter (fun p => decide (500 ≤ now - p.2.time_sent))).map
          (fun p => (e.1, p.1))) ++ acc) [] := by
  intro L
  induction L with
  | nil => intro nb inner b ctx h _ _; simp at h
  | cons e t ih =>
      intro nb inner b ctx hmem hb hc
      rcases List.mem_cons.mp hmem with heq | hmem2
      · apply List.mem_append.mpr
        left
        rw [← heq]
        exact List.mem_map.mpr ⟨(b, ctx), List.mem_filter.mpr ⟨hb, by simp [hc]⟩, rfl⟩
      · exact List.mem_append.mpr (Or.inr (ih nb inner b ctx hmem2 hb hc))

theorem resendList_mem (now : Nat) (s : Broadcast) (nb : String) (b : List Nat)
    (ctx : AckContext) (hl : Broadcast.lookupUnacked s nb b = some ctx)
    (hc : 500 ≤ now - ctx.time_sent) : (nb, b) ∈ Broadcast.resendList now s := by
  unfold Broadcast.lookupUnacked at hl
  cases houter : alookup nb s.neighbor_messages_not_acked with
  | none => rw [houter] at hl; simp at hl
  | some inner =>
      rw [houter] at hl
      have hinner : alookup b inner = some ctx := hl
      exact resendList_foldr_mem now s.neighbor_messages_not_acked nb inner b ctx
        (alookup_mem houter) (alookup_mem hinner) hc

theorem handle_message_unacked (now : Nat) (s : Broadcast) (e : Message BroadcastPayload)
    (m : Nat) :
    (Broadcast.handle_message now s e m).neighbor_messages_not_acked =
      s.neighbor_messages_not_acked := by
  by_cases hm : m ∈ s.messages_seen
  · simp [Broadcast.handle_message, hm]
  · by_cases hc : (isClient e.src || s.always_broadcast) = true
    · have hres : Broadcast.handle_message now s e m =
          s.neighbors.foldl (fun st n2 => Broadcast.prepare_send_to_neighbor now st n2 m)
            { s with messages_seen := s.messages_seen ++ [m] } := by
        simp [Broadcast.handle_message, hm, hc]
      rw [hres, (foldPrepare_spec now m s.neighbors _).1.2.2.2]
    · simp [Broadcast.handle_message, hm, hc]

theorem foldHandle_unacked (now : Nat) (e : Message BroadcastPayload) :
    ∀ (ms : List Nat) (s : Broadcast),
    (ms.foldl (fun st mm => Broadcast.handle_message now st e mm)
      s).neighbor_messages_not_acked = s.neighbor_messages_not_acked := by
  intro ms
  induction ms with
  | nil => intro s; rfl
  | cons m t ih =>
      intro s
      have hstep : (m :: t).foldl (fun st mm => Broadcast.handle_message now st e mm) s =
          t.foldl (fun st mm => Broadcast.handle_message now st e mm)
            (Broadcast.handle_message now s e m) := rfl
      rw [hstep, ih, handle_message_unacked]

theorem handle_ack_unacked (now : Nat) (s : Broadcast) (w : MessageWriter BroadcastPayload)
    (e : Message BroadcastPayload)
    (hp : e.body.payload = BroadcastPayload.broadcast_batched_ok) :
    (Broadcast.handle now e s w).1.neighbor_messages_not_acked =
      aupdate e.src (fun _ =>
        (match ((alookup e.src s.neighbor_messages_not_acked).getD []).find?
            (fun p => decide (e.body.in_reply_to = some p.2.message_id)) with
         | some p => aremove p.1 ((alookup e.src s.neighbor_messages_not_acked).getD [])
         | none => (alookup e.src s.neighbor_messages_not_acked).getD []))
        s.neighbor_messages_not_acked := by
  simp [Broadcast.handle, hp]

theorem flush_sentP_or_same (now : Nat) (s : Broadcast) (w : MessageWriter BroadcastPayload)
    (nb : String) (b : List Nat) :
    SentP now w.node_id nb b (Broadcast.flushPhase now (s, w)) ∨
    Broadcast.lookupUnacked (Broadcast.flushPhase now (s, w)).1 nb b =
      Broadcast.lookupUnacked s nb b := by
  by_cases hmem : (nb, b) ∈ ((s.batched_sends_to_neighbors.filter
      (fun e => decide (100 ≤ now - e.2.1))).map (fun e => (e.1, e.2.2)))
  · left
    obtain ⟨mid, h1, h2⟩ := sentP_sendFold_mem now w.node_id nb b
      ((s.batched_sends_to_neighbors.filter
        (fun e => decide (100 ≤ now - e.2.1))).map (fun e => (e.1, e.2.2)))
      (s, w) rfl hmem
    exact ⟨mid, h1, h2⟩
  · right
    exact sendFold_lookup_not_mem now
      ((s.batched_sends_to_neighbors.filter
        (fun e => decide (100 ≤ now - e.2.1))).map (fun e => (e.1, e.2.2)))
      (s, w) nb b hmem

/-- C4: every tick resends each unacked batch at least 500 ms old (the
exact stored batch, to its neighbor, refreshing the stored `time_sent` and
outbound `msg_id`), removes no unacked entry, and an unacked entry is
removed exactly by a `broadcast_batched_ok` envelope from that neighbor
whose `in_reply_to` equals the entry's currently stored `msg_id`. -/
theorem c4_theorem (now : Nat) (s : Broadcast) (w : MessageWriter BroadcastPayload) :
    C4Post now s w := by
  refine ⟨?_, ?_, ?_, ?_, ?_⟩
  · intro nb batch ctx hl hage
    have hsrc : (Broadcast.flushPhase now (s, w)).2.node_id = w.node_id := by
      show (sendFold now ((s.batched_sends_to_neighbors.filter
        (fun e => decide (100 ≤ now - e.2.1))).map (fun e => (e.1, e.2.2)))
          (s, w)).2.node_id = w.node_id
      rw [sendFold_node_id]
    rcases flush_sentP_or_same now s w nb batch with hP | hsame
    · obtain ⟨mid, h1, h2⟩ := sentP_sendFold now w.node_id nb batch
        (Broadcast.resendList now (Broadcast.flushPhase now (s, w)).1)
        (Broadcast.flushPhase now (s, w)) hsrc hP
      exact ⟨mid, h1, h2⟩
    · have hl2 : Broadcast.lookupUnacked (Broadcast.flushPhase now (s, w)).1 nb batch =
          some ctx := by rw [hsame]; exact hl
      have hmem2 := resendList_mem now (Broadcast.flushPhase now (s, w)).1 nb batch ctx
        hl2 hage
      obtain ⟨mid, h1, h2⟩ := sentP_sendFold_mem now w.node_id nb batch
        (Broadcast.resendList now (Broadcast.flushPhase now (s, w)).1)
        (Broadcast.flushPhase now (s, w)) hsrc hmem2
      exact ⟨mid, h1, h2⟩
  · intro nb batch h
    have h1 := sendFold_isSome now
      ((s.batched_sends_to_neighbors.filter
        (fun e => decide (100 ≤ now - e.2.1))).map (fun e => (e.1, e.2.2)))
      (s, w) nb batch h
    exact sendFold_isSome now
      (Broadcast.resendList now (Broadcast.flushPhase now (s, w)).1)
      (Broadcast.flushPhase now (s, w)) nb batch h1
  · intro e r hp hr hkeys hids batch ctx hl
    cases houter : alookup e.src s.neighbor_messages_not_acked with
    | none =>
        unfold Broadcast.lookupUnacked at hl
        rw [houter] at hl
        simp at hl
    | some inner =>
        have hinner : alookup batch inner = some ctx := by
          unfold Broadcast.lookupUnacked at hl
          rw [houter] at hl
          exact hl
        have hcur : (alookup e.src s.neighbor_messages_not_acked).getD [] = inner := by
          rw [houter]
          rfl
        rw [hcur] at hkeys hids
        have hpost : Broadcast.lookupUnacked (Broadcast.handle now e s w).1 e.src batch =
            alookup batch
              (match inner.find? (fun p => decide (some r = some p.2.message_id)) with
               | some p => aremove p.1 inner
               | none => inner) := by
          unfold Broadcast.lookupUnacked
          rw [handle_ack_unacked now s w e hp, hr, hcur, alookup_aupdate_self]
          rfl
        have hbc : (batch, ctx) ∈ inner := alookup_mem hinner
        cases hfind : inner.find? (fun p => decide (some r = some p.2.message_id)) with
        | some p =>
            have hval : (match inner.find?
                  (fun p => decide (some r = some p.2.message_id)) with
                | some p => aremove p.1 inner
                | none => inner) = aremove p.1 inner := by rw [hfind]
            have hpmem : p ∈ inner := List.mem_of_find?_eq_some hfind
            have hptrue := List.find?_some hfind
            have hpid : p.2.message_id = r := by
              simp at hptrue
              exact hptrue.symm
            by_cases hcr : ctx.message_id = r
            · have hpe : p = (batch, ctx) :=
                nodup_map_inj hids p hpmem (batch, ctx) hbc (by rw [hpid, hcr])
              rw [hpost, hval, hpe, if_pos hcr]
              exact alookup_aremove_self batch inner
            · have hp1 : batch ≠ p.1 := by
                intro hc
                have hpe : p = (batch, ctx) :=
                  nodup_map_inj hkeys p hpmem (batch, ctx) hbc (by rw [← hc])
                rw [hpe] at hpid
                exact hcr hpid
              rw [hpost, hval, if_neg hcr, alookup_aremove_ne inner hp1]
              exact hinner
        | none =>
            have hval : (match inner.find?
                  (fun p => decide (some r = some p.2.message_id)) with
                | some p => aremove p.1 inner
                | none => inner) = inner := by rw [hfind]
            have hall := List.find?_eq_none.mp hfind (batch, ctx) hbc
            have hnotr : ctx.message_id ≠ r := by
              simp at hall
              exact fun hc => hall (hc.symm)
            rw [hpost, hval, if_neg hnotr]
            exact hinner
  · intro e hne
    cases hp : e.body.payload with
    | broadcast m =>
        have hh : (Broadcast.handle now e s w).1 = Broadcast.handle_message now s e m := by
          simp [Broadcast.handle, hp]
        rw [hh, handle_message_unacked]
    | broadcast_ok =>
        have hh : (Broadcast.handle now e s w).1 = s := by
          simp [Broadcast.handle, hp]
        rw [hh]
    | broadcast_batched ms =>
        have hh : (Broadcast.handle now e s w).1 =
            ms.foldl (fun st mm => Broadcast.handle_message now st e mm) s := by
          simp [Broadcast.handle, hp]
        rw [hh, foldHandle_unacked]
    | broadcast_batched_ok => exact absurd hp hne
    | read =>
        have hh : (Broadcast.handle now e s w).1 = s := by
          simp [Broadcast.handle, hp]
        rw [hh]
    | read_ok ms =>
        have hh : (Broadcast.handle now e s w).1 = s := by
          simp [Broadcast.handle, hp]
        rw [hh]
    | topology t =>
        have hh : (Broadcast.handle now e s w).1 = s := by
          simp [Broadcast.handle, hp]
        rw [hh]
    | topology_ok =>
        have hh : (Broadcast.handle now e s w).1 = s := by
          simp [Broadcast.handle, hp]
        rw [hh]
  · intro e nb batch hp hne
    unfold Broadcast.lookupUnacked
    rw [handle_ack_unacked now s w e hp, alookup_aupdate_ne _ _ hne]

/-- Witness for C4's resend rule: a single unacked entry aged 600 ms is
resent and refreshed by the tick. -/
theorem c4_witness :
    Broadcast.lookupUnacked
        ⟨[], [], true, [("n2", [([1, 2], ⟨7, 0⟩)])], []⟩ "n2" [1, 2] = some ⟨7, 0⟩ ∧
    500 ≤ 600 - 0 ∧
    ∃ mid,
      Broadcast.lookupUnacked
        (Broadcast.tick 600 (⟨[], [], true, [("n2", [([1, 2], ⟨7, 0⟩)])], []⟩,
          MessageWriter.init "n1")).1 "n2" [1, 2] = some ⟨mid, 600⟩ ∧
      mkBatchedSend "n1" "n2" [1, 2] mid ∈
        (Broadcast.tick 600 (⟨[], [], true, [("n2", [([1, 2], ⟨7, 0⟩)])], []⟩,
          MessageWriter.init "n1")).2.sent :=
  ⟨by decide, by decide,
   (c4_theorem 600 ⟨[], [], true, [("n2", [([1, 2], ⟨7, 0⟩)])], []⟩
     (MessageWriter.init "n1")).1 "n2" [1, 2] ⟨7, 0⟩ (by decide) (by decide)⟩

/-- C5: a tick flushes exactly the pending coalescing batches at least
100 ms old, removing them from `batched_sends_to_neighbors` and recording
them in `unacked[neighbor]` keyed by the exact ordered contents with the
emission time and outbound `msg_id` (refreshing an existing identical key
rather than duplicating it); batches younger than 100 ms stay pending and
receive no send from the flush half. -/
theorem c5_theorem (now : Nat) (s : Broadcast) (w : MessageWriter BroadcastPayload)
    (hkeys : (s.batched_sends_to_neighbors.map Prod.fst).Nodup) : C5Post now s w := by
  have hsrc : (Broadcast.flushPhase now (s, w)).2.node_id = w.node_id := by
    show (sendFold now ((s.batched_sends_to_neighbors.filter
      (fun e => decide (100 ≤ now - e.2.1))).map (fun e => (e.1, e.2.2)))
        (s, w)).2.node_id = w.node_id
    rw [sendFold_node_id]
  have h2 : (Broadcast.flushPhase now (s, w)).1.batched_sends_to_neighbors =
      ((sendFold now ((s.batched_sends_to_neighbors.filter
        (fun e => decide (100 ≤ now - e.2.1))).map (fun e => (e.1, e.2.2)))
          (s, w)).1.batched_sends_to_neighbors).filter
        (fun e => decide (e.1 ∉ (s.batched_sends_to_neighbors.filter
          (fun e => decide (100 ≤ now - e.2.1))).map Prod.fst)) := rfl
  refine ⟨?_, ?_, ?_⟩
  · intro nb t msgs hl hc
    constructor
    · have h1 : (Broadcast.tick now (s, w)).1.batched_sends_to_neighbors =
          (Broadcast.flushPhase now (s, w)).1.batched_sends_to_neighbors := by
        show (sendFold now (Broadcast.resendList now (Broadcast.flushPhase now (s, w)).1)
          (Broadcast.flushPhase now (s, w))).1.batched_sends_to_neighbors = _
        rw [sendFold_batched]
      rw [h1, h2, sendFold_batched]
      exact alookup_filter_out _ _ nb (ready_key_mem now s nb t msgs hl hc)
    · have hP0 := sentP_sendFold_mem now w.node_id nb msgs
        ((s.batched_sends_to_neighbors.filter
          (fun e => decide (100 ≤ now - e.2.1))).map (fun e => (e.1, e.2.2)))
        (s, w) rfl (ready_pair_mem now s nb t msgs hl hc)
      have hP1 : SentP now w.node_id nb msgs (Broadcast.flushPhase now (s, w)) := by
        obtain ⟨mid, ha, hb⟩ := hP0
        exact ⟨mid, ha, hb⟩
      obtain ⟨mid, ha, hb⟩ := sentP_sendFold now w.node_id nb msgs
        (Broadcast.resendList now (Broadcast.flushPhase now (s, w)).1)
        (Broadcast.flushPhase now (s, w)) hsrc hP1
      exact ⟨mid, hb, ha⟩
  · intro nb t msgs hl hy
    have hnotin := young_not_ready now s hkeys nb t msgs hl hy
    constructor
    · rw [h2, sendFold_batched]
      rw [alookup_filter_keep _ _ nb hnotin]
      exact hl
    · intro m hm hmnot
      have hm2 : m ∈ (sendFold now ((s.batched_sends_to_neighbors.filter
          (fun e => decide (100 ≤ now - e.2.1))).map (fun e => (e.1, e.2.2)))
            (s, w)).2.sent := hm
      have hdst := sendFold_sent_dst now
        ((s.batched_sends_to_neighbors.filter
          (fun e => decide (100 ≤ now - e.2.1))).map (fun e => (e.1, e.2.2)))
        (s, w) m hm2
      rcases hdst with h3 | h3
      · exact absurd h3 hmnot
      · intro hdsteq
        rw [hdsteq] at h3
        have hmapmap : (((s.batched_sends_to_neighbors.filter
            (fun e => decide (100 ≤ now - e.2.1))).map (fun e => (e.1, e.2.2))).map
              Prod.fst) = (s.batched_sends_to_neighbors.filter
            (fun e => decide (100 ≤ now - e.2.1))).map Prod.fst := by
          rw [List.map_map]
          rfl
        rw [hmapmap] at h3
        exact hnotin h3
  · intro nb h
    have h1 := sendFold_inner_nodup now
      ((s.batched_sends_to_neighbors.filter
        (fun e => decide (100 ≤ now - e.2.1))).map (fun e => (e.1, e.2.2)))
      (s, w) nb h
    exact sendFold_inner_nodup now
      (Broadcast.resendList now (Broadcast.flushPhase now (s, w)).1)
      (Broadcast.flushPhase now (s, w)) nb h1

/-- Witness for C5: with one 500 ms old pending batch to "n2" and one
50 ms old pending batch to "n3", the tick flushes the former and keeps the
latter. -/
theorem c5_witness :
    ((([("n2", ((0 : Nat), [5, 6])), ("n3", ((450 : Nat), [9]))] :
        List (String × (Nat × List Nat))).map Prod.fst).Nodup) ∧
    C5Post 500 ⟨[], [], true, [], [("n2", (0, [5, 6])), ("n3", (450, [9]))]⟩
      (MessageWriter.init "n1") :=
  ⟨by decide,
   c5_theorem 500 ⟨[], [], true, [], [("n2", (0, [5, 6])), ("n3", (450, [9]))]⟩
     (MessageWriter.init "n1") (by decide)⟩
